import Mathlib

/-!
Shallow embedding of the `hako` text-block layout engine
(`src/content.rs`, `src/block.rs`) and proofs about its claims.

Unicode grapheme segmentation and display-width computation are external
collaborators of the repository (`unicode_segmentation`, `unicode_width`).
Content is therefore embedded in segmented form: a line of content is the
list of its grapheme clusters, each cluster carrying the display width the
collaborator assigns to it.  Fallible operations (Rust code that can
panic through `unwrap`, index-out-of-bounds, or `step_by(0)`) return
`Option`, with `none` for the panic.
-/

/-- A grapheme cluster (`Grapheme` in `src/content.rs`): its textual form
and the display width in columns that the `unicode_width` collaborator
assigns to it.  Rust compares graphemes by their textual form; widths are
a function of the text, so structural equality agrees on realistic
values. -/
structure Grapheme where
  text : String
  w : Nat
deriving DecidableEq

/-- `Grapheme::SPACE`, the distinguished single-space cluster. -/
def Grapheme.space : Grapheme := ⟨" ", 1⟩

/-- A line of plain content (`impl Content for String` / `Cow<str>`):
the segmented sequence of its grapheme clusters. -/
abbrev Content := List Grapheme

/-- `Content::width` for plain content: the display width of the line,
the sum of the widths of its clusters (what `UnicodeWidthStr::width`
computes). -/
def Content.width (c : Content) : Nat := (c.map Grapheme.w).sum

/-- `Content::empty`. -/
def Content.emptyC : Content := []

/-- `Content::grapheme`. -/
def Content.grapheme (g : Grapheme) : Content := [g]

/-- `Content::space`, defaulting to `grapheme(SPACE)`. -/
def Content.space : Content := Content.grapheme Grapheme.space

/-- `Content::repeat` for plain content (`str::repeat`): `n`
concatenated copies. -/
def Content.repeatN (c : Content) (n : Nat) : Content :=
  (List.replicate n c).flatten

/-- `Content::truncate` for plain content: the code takes the first
`width` grapheme clusters (`self.graphemes(true).take(width)`),
counting clusters, not columns. -/
def Content.truncate (c : Content) (width : Nat) : Content :=
  c.take width

/-- `Content::concatenate` for plain content. -/
def Content.concatenate (l r : Content) : Content := l ++ r

/-- Helper for `str::lines`: split a cluster sequence at newline
clusters.  (`\r\n` clusters are outside the modelled inputs.) -/
def splitNL : Content → List Content
  | [] => [[]]
  | g :: rest =>
    match splitNL rest with
    | [] => [[g]]
    | h :: t => if g.text = "\n" then [] :: h :: t else (g :: h) :: t

/-- `Content::into_lines` for plain content (`str::lines`): split on
newlines; a trailing line terminator produces no trailing empty line,
and the empty string produces no lines at all. -/
def Content.intoLines (c : Content) : List Content :=
  let parts := splitNL c
  match parts.getLast? with
  | some [] => parts.dropLast
  | _ => parts

/-- `Layer` from `src/content.rs`. -/
inductive Layer where
  | front
  | back
deriving DecidableEq

/-- The default overlay decision rule of `ContentBlock::overlay`: a front
glyph equal to `Grapheme::SPACE` (textual comparison) is transparent. -/
def defaultDecide (f _b : Grapheme) : Layer :=
  if f.text = " " then Layer.back else Layer.front

/-- `Content::overlay_with` for plain content, including the
`Congruent::try_from(..).unwrap()` width check performed by its caller
(`none` is the panic on incongruent rows): walk both rows
grapheme-by-grapheme in lock-step (`zip`, stopping at the shorter
cluster sequence) and keep the chosen glyph. -/
def Content.overlayWith (front back : Content)
    (d : Grapheme → Grapheme → Layer) : Option Content :=
  if Content.width front = Content.width back then
    some (List.zipWith
      (fun fg bg => match d fg bg with | Layer.front => fg | Layer.back => bg)
      front back)
  else none

/-- `Content::render` for plain content: the text itself. -/
def Content.render (c : Content) : String :=
  String.join (c.map Grapheme.text)

/-- `ContentSlice::width` for `[C]`: the maximum line width
(`.max().unwrap_or(0)`). -/
def linesWidth (ls : List Content) : Nat :=
  ls.foldr (fun l m => max (Content.width l) m) 0

/-- `str::trim_end`: drop trailing whitespace characters. -/
def trimEndStr (s : String) : String :=
  ⟨(s.data.reverse.dropWhile Char.isWhitespace).reverse⟩

/-- `EmptyBlock` from `src/block.rs`: recorded dimensions, no content. -/
structure EmptyBlock where
  width : Nat
  height : Nat
deriving DecidableEq

/-- `ContentBlock` from `src/block.rs`: the materialized lines. -/
structure ContentBlock where
  lines : List Content
deriving DecidableEq

def ContentBlock.width (b : ContentBlock) : Nat := linesWidth b.lines

def ContentBlock.height (b : ContentBlock) : Nat := b.lines.length

/-- `ContentBlock::normalize`: right-pad each line to `width` with
spaces (`grapheme(SPACE).repeat(n)`). -/
def normLine (width : Nat) (l : Content) : Content :=
  if 0 < width - Content.width l then
    Content.concatenate l (Content.repeatN (Content.grapheme Grapheme.space) (width - Content.width l))
  else l

def ContentBlock.normalize (b : ContentBlock) (width : Nat) : ContentBlock :=
  ⟨b.lines.map (normLine width)⟩

/-- `impl From<Vec<C>> for ContentBlock`: normalize to the maximum line
width. -/
def ContentBlock.fromLines (ls : List Content) : ContentBlock :=
  ContentBlock.normalize ⟨ls⟩ (linesWidth ls)

/-- `ContentBlock::push`. -/
def ContentBlock.push (b : ContentBlock) (c : Content) : ContentBlock :=
  ContentBlock.fromLines (b.lines ++ Content.intoLines c)

/-- `ContentBlock::pad_to_width_at_right`: append `width - current`
trailing space columns to every line (`space().repeat(n)`); assumes the
lines already share their width. -/
def ContentBlock.padToWidthAtRight (b : ContentBlock) (width : Nat) : ContentBlock :=
  if 0 < width - b.width then
    ⟨b.lines.map (fun l => Content.concatenate l (Content.repeatN Content.space (width - b.width)))⟩
  else b

/-- `ContentBlock::join_top_to_bottom_at_left`. -/
def ContentBlock.joinTopToBottomAtLeft (t b : ContentBlock) : ContentBlock :=
  ⟨(t.padToWidthAtRight (max t.width b.width)).lines ++
    (b.padToWidthAtRight (max t.width b.width)).lines⟩

/-- `ContentBlock::pad_to_height_at_bottom`: join a
`EmptyBlock::new(width, n).fill(Grapheme::SPACE)` spacer below; the
`unwrap` cannot fail because the spacer height is positive, so the
filled spacer is inlined. -/
def ContentBlock.padToHeightAtBottom (b : ContentBlock) (height : Nat) : ContentBlock :=
  if 0 < height - b.height then
    b.joinTopToBottomAtLeft
      ⟨List.replicate (height - b.height) (Content.repeatN (Content.grapheme Grapheme.space) b.width)⟩
  else b

/-- `ContentBlock::join_left_to_right_at_top`. -/
def ContentBlock.joinLeftToRightAtTop (l r : ContentBlock) : ContentBlock :=
  ⟨List.zipWith Content.concatenate
    (l.padToHeightAtBottom (max l.height r.height)).lines
    (r.padToHeightAtBottom (max l.height r.height)).lines⟩

/-- Sequence a list of options (`none` propagates a row panic). -/
def seqO : List (Option Content) → Option (List Content)
  | [] => some []
  | none :: _ => none
  | some a :: rest => (seqO rest).map (fun as => a :: as)

/-- `ContentBlock::overlay`: pad both operands to the union of their
dimensions, then overlay row by row with the default decision rule;
`none` models the `Congruent` `unwrap` panic on rows of unequal width. -/
def ContentBlock.overlay (f b : ContentBlock) : Option ContentBlock :=
  (seqO (List.zipWith (fun fl bl => Content.overlayWith fl bl defaultDecide)
      ((f.padToHeightAtBottom (max f.height b.height)).padToWidthAtRight
        (max f.width b.width)).lines
      ((b.padToHeightAtBottom (max f.height b.height)).padToWidthAtRight
        (max f.width b.width)).lines)).map
    (fun ls => ContentBlock.fromLines ls)

/-- Fundamental `EmptyBlock` operations. -/
def EmptyBlock.padToWidthAtRight (b : EmptyBlock) (width : Nat) : EmptyBlock :=
  ⟨max b.width width, b.height⟩

def EmptyBlock.padToHeightAtBottom (b : EmptyBlock) (height : Nat) : EmptyBlock :=
  ⟨b.width, max b.height height⟩

def EmptyBlock.joinLeftToRightAtTop (l r : EmptyBlock) : EmptyBlock :=
  ⟨l.width + r.width, max l.height r.height⟩

def EmptyBlock.joinTopToBottomAtLeft (t b : EmptyBlock) : EmptyBlock :=
  ⟨max t.width b.width, t.height + b.height⟩

def EmptyBlock.overlay (f b : EmptyBlock) : EmptyBlock :=
  ⟨max f.width b.width, max f.height b.height⟩

/-- `impl Fill<C, Grapheme> for EmptyBlock`: `height` lines of
`grapheme(glyph).repeat(width)`, or `Err(self)` when the height is
zero. -/
def EmptyBlock.fillG (b : EmptyBlock) (g : Grapheme) : Except EmptyBlock ContentBlock :=
  if b.height = 0 then Except.error b
  else Except.ok ⟨List.replicate b.height (Content.repeatN (Content.grapheme g) b.width)⟩

/-- `div_ceiling` from `impl Fill<C, C> for EmptyBlock`
(`(0..a).step_by(b).len()`, for positive `b`). -/
def divCeiling (a b : Nat) : Nat := (a + b - 1) / b

/-- One step of the width repair in `Fill<C, C> for EmptyBlock`:
tile a too-narrow line and truncate to the width.  `none` is the
`step_by(0)` panic when a line of zero width must be tiled. -/
def fillLine (width : Nat) (l : Content) : Option Content :=
  if Content.width l < width then
    if Content.width l = 0 then none
    else some (Content.truncate (Content.repeatN l (divCeiling width (Content.width l))) width)
  else some (Content.truncate l width)

/-- The list of filler lines actually placed by `Fill<C, C> for
EmptyBlock`: cycle through the filler's lines to reach the height, then
keep the first `height` of them.  (The cycling loop indexes only the
original `lines.len()` prefix of the growing vector.) -/
def fillKept (height : Nat) (lines : List Content) : List Content :=
  (lines ++ (List.range (height - lines.length)).map
      (fun i => lines.getD (i % lines.length) [])).take height

/-- `impl Fill<C, C> for EmptyBlock`.  `none` models the panics: the
`lines.get(i).unwrap()` on a filler with no lines, and the `step_by(0)`
inside `div_ceiling` on a zero-width line. -/
def EmptyBlock.fillContent (b : EmptyBlock) (c : Content) :
    Option (Except EmptyBlock ContentBlock) :=
  if b.height = 0 then some (Except.error b)
  else if (Content.intoLines c).length = 0 then none
  else
    (seqO ((fillKept b.height (Content.intoLines c)).map (fillLine b.width))).map
      (fun ls => Except.ok (ContentBlock.fromLines ls))

/-- `ModalBlock` from `src/block.rs`. -/
inductive ModalBlock where
  | empty (block : EmptyBlock)
  | content (block : ContentBlock)
deriving DecidableEq

def ModalBlock.width : ModalBlock → Nat
  | ModalBlock.empty b => b.width
  | ModalBlock.content b => b.width

def ModalBlock.height : ModalBlock → Nat
  | ModalBlock.empty b => b.height
  | ModalBlock.content b => b.height

def ModalBlock.isEmpty : ModalBlock → Bool
  | ModalBlock.empty _ => true
  | ModalBlock.content _ => false

def ModalBlock.padToWidthAtRight : ModalBlock → Nat → ModalBlock
  | ModalBlock.empty b, w => ModalBlock.empty (b.padToWidthAtRight w)
  | ModalBlock.content b, w => ModalBlock.content (b.padToWidthAtRight w)

def ModalBlock.padToHeightAtBottom : ModalBlock → Nat → ModalBlock
  | ModalBlock.empty b, h => ModalBlock.empty (b.padToHeightAtBottom h)
  | ModalBlock.content b, h => ModalBlock.content (b.padToHeightAtBottom h)

/-- `ModalBlock::join_left_to_right_at_top`; `none` models the panic of
the `fill(Grapheme::SPACE).unwrap()` in the mixed-mode branches, which
fails when both operands have height zero. -/
def ModalBlock.joinLeftToRightAtTop : ModalBlock → ModalBlock → Option ModalBlock
  | ModalBlock.empty l, ModalBlock.empty r =>
    some (ModalBlock.empty (l.joinLeftToRightAtTop r))
  | ModalBlock.content l, ModalBlock.content r =>
    some (ModalBlock.content (l.joinLeftToRightAtTop r))
  | ModalBlock.empty l, ModalBlock.content r =>
    if l.width = 0 then some (ModalBlock.content r)
    else
      match (l.padToHeightAtBottom (max l.height r.height)).fillG Grapheme.space with
      | Except.ok cb =>
        some (ModalBlock.content
          (cb.joinLeftToRightAtTop (r.padToHeightAtBottom (max l.height r.height))))
      | Except.error _ => none
  | ModalBlock.content l, ModalBlock.empty r =>
    if r.width = 0 then some (ModalBlock.content l)
    else
      match (r.padToHeightAtBottom (max l.height r.height)).fillG Grapheme.space with
      | Except.ok cb =>
        some (ModalBlock.content
          ((l.padToHeightAtBottom (max l.height r.height)).joinLeftToRightAtTop cb))
      | Except.error _ => none

/-- `ModalBlock::join_top_to_bottom_at_left`; mixed-mode `unwrap`s are
guarded by the height test and cannot fail, but are modelled the same
way. -/
def ModalBlock.joinTopToBottomAtLeft : ModalBlock → ModalBlock → Option ModalBlock
  | ModalBlock.empty t, ModalBlock.empty b =>
    some (ModalBlock.empty (t.joinTopToBottomAtLeft b))
  | ModalBlock.content t, ModalBlock.content b =>
    some (ModalBlock.content (t.joinTopToBottomAtLeft b))
  | ModalBlock.empty t, ModalBlock.content b =>
    if t.height = 0 then some (ModalBlock.content b)
    else
      match (t.padToWidthAtRight (max t.width b.width)).fillG Grapheme.space with
      | Except.ok cb =>
        some (ModalBlock.content
          (cb.joinTopToBottomAtLeft (b.padToWidthAtRight (max t.width b.width))))
      | Except.error _ => none
  | ModalBlock.content t, ModalBlock.empty b =>
    if b.height = 0 then some (ModalBlock.content t)
    else
      match (b.padToWidthAtRight (max t.width b.width)).fillG Grapheme.space with
      | Except.ok cb =>
        some (ModalBlock.content
          ((t.padToWidthAtRight (max t.width b.width)).joinTopToBottomAtLeft cb))
      | Except.error _ => none

/-- `ModalBlock::overlay`; `none` models the mixed-mode
`fill(..).unwrap()` panic when both operands have height zero, and the
`Congruent` panic inside the content overlay. -/
def ModalBlock.overlay : ModalBlock → ModalBlock → Option ModalBlock
  | ModalBlock.empty f, ModalBlock.empty b =>
    some (ModalBlock.empty (f.overlay b))
  | ModalBlock.content f, ModalBlock.content b =>
    (f.overlay b).map ModalBlock.content
  | ModalBlock.empty f, ModalBlock.content b =>
    match ((f.padToWidthAtRight (max f.width b.width)).padToHeightAtBottom
        (max f.height b.height)).fillG Grapheme.space with
    | Except.ok cb =>
      (cb.overlay ((b.padToWidthAtRight (max f.width b.width)).padToHeightAtBottom
        (max f.height b.height))).map ModalBlock.content
    | Except.error _ => none
  | ModalBlock.content f, ModalBlock.empty b =>
    match ((b.padToWidthAtRight (max f.width b.width)).padToHeightAtBottom
        (max f.height b.height)).fillG Grapheme.space with
    | Except.ok cb =>
      (((f.padToWidthAtRight (max f.width b.width)).padToHeightAtBottom
        (max f.height b.height)).overlay cb).map ModalBlock.content
    | Except.error _ => none

/-- `Block` from `src/block.rs` (at its default plain content type). -/
structure Block where
  inner : ModalBlock
deriving DecidableEq

def Block.width (b : Block) : Nat := b.inner.width

def Block.height (b : Block) : Nat := b.inner.height

def Block.isEmpty (b : Block) : Bool := b.inner.isEmpty

/-- `Block::with_content`. -/
def Block.withContent (c : Content) : Block :=
  ⟨ModalBlock.content (ContentBlock.fromLines (Content.intoLines c))⟩

/-- `Block::with_dimensions`. -/
def Block.withDimensions (width height : Nat) : Block :=
  ⟨ModalBlock.empty ⟨width, height⟩⟩

/-- `Block::zero`. -/
def Block.zero : Block := Block.withDimensions 0 0

/-- `Block::with_height`. -/
def Block.withHeight (height : Nat) : Block := Block.withDimensions 0 height

/-- `Block::with_width`. -/
def Block.withWidth (width : Nat) : Block := Block.withDimensions width 0

/-- `impl Fill<C, Grapheme> for Block`: refill from the block's
dimensions; a failed fill keeps the empty block. -/
def Block.fillG (b : Block) (g : Grapheme) : Block :=
  match EmptyBlock.fillG ⟨b.width, b.height⟩ g with
  | Except.ok cb => ⟨ModalBlock.content cb⟩
  | Except.error e => ⟨ModalBlock.empty e⟩

/-- `Block::filled` (with a grapheme filler). -/
def Block.filled (width height : Nat) (g : Grapheme) : Block :=
  (Block.withDimensions width height).fillG g

/-- `impl Fill<C, C> for Block`: refill from the block's dimensions with
a content filler; `none` is the panic inside the fill algorithm. -/
def Block.fillContent (b : Block) (c : Content) : Option Block :=
  match EmptyBlock.fillContent ⟨b.width, b.height⟩ c with
  | some (Except.ok cb) => some ⟨ModalBlock.content cb⟩
  | some (Except.error e) => some ⟨ModalBlock.empty e⟩
  | none => none

/-- `Block::push` (`into_content_or_fill(SPACE)` with the
`unwrap_or_else` fallback for zero-height empty blocks). -/
def Block.push (b : Block) (c : Content) : Block :=
  match b.inner with
  | ModalBlock.content cb => ⟨ModalBlock.content (cb.push c)⟩
  | ModalBlock.empty e =>
    match e.fillG Grapheme.space with
    | Except.ok cb => ⟨ModalBlock.content (cb.push c)⟩
    | Except.error e2 =>
      ⟨ModalBlock.content ((ContentBlock.padToWidthAtRight ⟨[]⟩ e2.width).push c)⟩

def Block.padToWidthAtRight (b : Block) (width : Nat) : Block :=
  ⟨b.inner.padToWidthAtRight width⟩

def Block.padToHeightAtBottom (b : Block) (height : Nat) : Block :=
  ⟨b.inner.padToHeightAtBottom height⟩

def Block.joinLeftToRightAtTop (a b : Block) : Option Block :=
  (a.inner.joinLeftToRightAtTop b.inner).map Block.mk

def Block.joinTopToBottomAtLeft (a b : Block) : Option Block :=
  (a.inner.joinTopToBottomAtLeft b.inner).map Block.mk

def Block.overlay (a b : Block) : Option Block :=
  (a.inner.overlay b.inner).map Block.mk

/-- `Block::pad_at_left`: join a space-filled spacer on the left. -/
def Block.padAtLeft (b : Block) (width : Nat) : Option Block :=
  (Block.filled width b.height Grapheme.space).joinLeftToRightAtTop b

/-- `Block::pad_at_right`. -/
def Block.padAtRight (b : Block) (width : Nat) : Option Block :=
  b.joinLeftToRightAtTop (Block.filled width b.height Grapheme.space)

/-- `Block::pad_at_top`. -/
def Block.padAtTop (b : Block) (height : Nat) : Option Block :=
  (Block.filled b.width height Grapheme.space).joinTopToBottomAtLeft b

/-- `Block::pad_at_bottom`. -/
def Block.padAtBottom (b : Block) (height : Nat) : Option Block :=
  b.joinTopToBottomAtLeft (Block.filled b.width height Grapheme.space)

/-- `Block::pad_to_width_at_left` (saturating). -/
def Block.padToWidthAtLeft (b : Block) (width : Nat) : Option Block :=
  b.padAtLeft (width - b.width)

/-- `Block::pad_to_height_at_top` (saturating). -/
def Block.padToHeightAtTop (b : Block) (height : Nat) : Option Block :=
  b.padAtTop (height - b.height)

/-- `impl Render for Block`: per line, the rendered line with trailing
whitespace trimmed, followed by a newline; an empty block renders as the
empty string. -/
def Block.render (b : Block) : String :=
  match b.inner with
  | ModalBlock.empty _ => ""
  | ModalBlock.content cb =>
    cb.lines.foldl (fun out l => out ++ trimEndStr (Content.render l) ++ "\n") ""

/-- The rows of a block, as rendered strings (empty for an empty-mode
block). -/
def Block.rowStrings (b : Block) : List String :=
  match b.inner with
  | ModalBlock.empty _ => []
  | ModalBlock.content cb => cb.lines.map Content.render

/-- Helper for concrete inputs: the content of an ASCII string, each
character one single-width grapheme cluster. -/
def strContent (s : String) : Content :=
  s.data.map (fun ch => ⟨String.singleton ch, 1⟩)

/-! ### Width lemmas for content -/

theorem Content.width_append (a b : Content) :
    Content.width (a ++ b) = Content.width a + Content.width b := by
  simp [Content.width]

theorem Content.width_repeatN (c : Content) (n : Nat) :
    Content.width (Content.repeatN c n) = n * Content.width c := by
  induction n with
  | zero => simp [Content.repeatN, Content.width]
  | succ k ih =>
    simp only [Content.repeatN, List.replicate_succ, List.flatten_cons] at *
    rw [Content.width_append, ih, Nat.succ_mul, Nat.add_comm]

theorem Content.repeatN_single (g : Grapheme) (n : Nat) :
    Content.repeatN (Content.grapheme g) n = List.replicate n g := by
  induction n with
  | zero => simp [Content.repeatN]
  | succ k ih =>
    simp only [Content.repeatN, List.replicate_succ, List.flatten_cons] at *
    simp [Content.grapheme, ih]

theorem Content.width_grapheme (g : Grapheme) :
    Content.width (Content.grapheme g) = g.w := by
  simp [Content.width, Content.grapheme]

theorem Content.width_space_repeatN (n : Nat) :
    Content.width (Content.repeatN Content.space n) = n := by
  rw [Content.space, Content.repeatN_single]
  simp [Content.width, Grapheme.space]

theorem Content.width_replicate_space (n : Nat) :
    Content.width (List.replicate n Grapheme.space) = n := by
  rw [← Content.repeatN_single, ← Content.space, Content.width_space_repeatN]

/-! ### Lemmas about the maximum line width -/

theorem linesWidth_nil : linesWidth [] = 0 := rfl

theorem linesWidth_cons (l : Content) (ls : List Content) :
    linesWidth (l :: ls) = max (Content.width l) (linesWidth ls) := rfl

theorem le_linesWidth {l : Content} {ls : List Content} (h : l ∈ ls) :
    Content.width l ≤ linesWidth ls := by
  induction ls with
  | nil => cases h
  | cons a as ih =>
    rcases List.mem_cons.mp h with rfl | hmem
    · rw [linesWidth_cons]; omega
    · have := ih hmem; rw [linesWidth_cons]; omega

theorem linesWidth_const {m : Nat} {ls : List Content}
    (h : ∀ l ∈ ls, Content.width l = m) (hne : ls ≠ []) : linesWidth ls = m := by
  induction ls with
  | nil => cases hne rfl
  | cons a as ih =>
    rw [linesWidth_cons, h a (List.mem_cons_self a as)]
    rcases List.eq_nil_or_concat as with rfl | _
    · simp [linesWidth_nil]
    · have has : as ≠ [] := by
        intro hnil; subst hnil; simp_all
      rw [ih (fun l hl => h l (List.mem_cons_of_mem a hl)) has]
      omega

theorem linesWidth_append (a b : List Content) :
    linesWidth (a ++ b) = max (linesWidth a) (linesWidth b) := by
  induction a with
  | nil => simp [linesWidth_nil]
  | cons x xs ih =>
    simp only [List.cons_append, linesWidth_cons, ih]
    omega

/-! ### Rectangularity of content blocks -/

/-- Rectangularity for a content block: every line has the block's
width (the block width itself is the maximum line width, so this says
the lines agree). -/
def ContentBlock.Wf (b : ContentBlock) : Prop :=
  ∀ l ∈ b.lines, Content.width l = b.width

theorem width_of_lines_nil {b : ContentBlock} (h : b.lines = []) : b.width = 0 := by
  simp [ContentBlock.width, h, linesWidth_nil]

theorem height_zero_lines_nil {b : ContentBlock} (h : b.height = 0) : b.lines = [] := by
  simpa [ContentBlock.height] using List.length_eq_zero.mp h

theorem normLine_width (m : Nat) (l : Content) :
    Content.width (normLine m l) = max m (Content.width l) := by
  unfold normLine
  by_cases h : 0 < m - Content.width l
  · simp only [h, if_pos]
    rw [Content.concatenate, Content.width_append]
    rw [Content.repeatN_single, Content.width_replicate_space]
    omega
  · simp only [h, if_neg, not_false_iff]
    omega

theorem normalize_line_width {ls : List Content} {m : Nat}
    (hle : ∀ l ∈ ls, Content.width l ≤ m) :
    ∀ l2 ∈ ls.map (normLine m), Content.width l2 = m := by
  intro l2 hl
  rcases List.mem_map.mp hl with ⟨x, hx, rfl⟩
  rw [normLine_width]
  have := hle x hx
  omega

theorem fromLines_width (ls : List Content) :
    (ContentBlock.fromLines ls).width = linesWidth ls := by
  show linesWidth (ls.map (normLine (linesWidth ls))) = linesWidth ls
  cases ls with
  | nil => rfl
  | cons a as =>
    apply linesWidth_const
    · exact normalize_line_width (fun l hl => le_linesWidth hl)
    · simp

theorem fromLines_wf (ls : List Content) : (ContentBlock.fromLines ls).Wf := by
  intro l hl
  rw [fromLines_width]
  exact normalize_line_width (fun x hx => le_linesWidth hx) l hl

theorem fromLines_height (ls : List Content) :
    (ContentBlock.fromLines ls).height = ls.length := by
  simp [ContentBlock.fromLines, ContentBlock.normalize, ContentBlock.height]

/-! ### Pad and join lemmas for content blocks -/

theorem mem_zipWith {α β γ : Type} {f : α → β → γ} {x : γ} :
    ∀ {as : List α} {bs : List β}, x ∈ List.zipWith f as bs →
      ∃ a ∈ as, ∃ b ∈ bs, x = f a b := by
  intro as
  induction as with
  | nil => intro bs h; simp at h
  | cons a as2 ih =>
    intro bs h
    cases bs with
    | nil => simp at h
    | cons b bs2 =>
      rcases List.mem_cons.mp h with rfl | hmem
      · exact ⟨a, List.mem_cons_self a as2, b, List.mem_cons_self b bs2, rfl⟩
      · rcases ih hmem with ⟨a2, ha2, b2, hb2, rfl⟩
        exact ⟨a2, List.mem_cons_of_mem a ha2, b2, List.mem_cons_of_mem b hb2, rfl⟩

theorem padToWidthAtRight_height (b : ContentBlock) (w : Nat) :
    (b.padToWidthAtRight w).height = b.height := by
  unfold ContentBlock.padToWidthAtRight
  split <;> simp [ContentBlock.height]

theorem padToWidthAtRight_rows {b : ContentBlock} (hwf : b.Wf) (w : Nat) :
    ∀ l ∈ (b.padToWidthAtRight w).lines, Content.width l = max b.width w := by
  intro l hl
  unfold ContentBlock.padToWidthAtRight at hl
  by_cases h : 0 < w - b.width
  · simp only [h, if_pos] at hl
    rcases List.mem_map.mp hl with ⟨x, hx, rfl⟩
    rw [Content.concatenate, Content.width_append, Content.width_space_repeatN, hwf x hx]
    omega
  · simp only [h, if_neg, not_false_iff] at hl
    rw [hwf l hl]
    omega

theorem padToWidthAtRight_width {b : ContentBlock} (hwf : b.Wf) (w : Nat)
    (hne : b.lines ≠ []) : (b.padToWidthAtRight w).width = max b.width w := by
  apply linesWidth_const (padToWidthAtRight_rows hwf w)
  unfold ContentBlock.padToWidthAtRight
  split <;> simpa

theorem padToWidthAtRight_nil {b : ContentBlock} (h : b.lines = []) (w : Nat) :
    b.padToWidthAtRight w = b := by
  unfold ContentBlock.padToWidthAtRight
  cases b
  simp_all

theorem padToWidthAtRight_wf {b : ContentBlock} (hwf : b.Wf) (w : Nat) :
    (b.padToWidthAtRight w).Wf := by
  rcases List.eq_nil_or_concat b.lines with hnil | _
  · rw [padToWidthAtRight_nil hnil]; exact hwf
  · have hne : b.lines ≠ [] := by intro hh; simp_all
    intro l hl
    rw [padToWidthAtRight_width hwf w hne]
    exact padToWidthAtRight_rows hwf w l hl

theorem joinTopToBottomAtLeft_height (t b : ContentBlock) :
    (t.joinTopToBottomAtLeft b).height = t.height + b.height := by
  unfold ContentBlock.joinTopToBottomAtLeft
  have h1 := padToWidthAtRight_height t (max t.width b.width)
  have h2 := padToWidthAtRight_height b (max t.width b.width)
  simp only [ContentBlock.height] at h1 h2 ⊢
  rw [List.length_append, h1, h2]

theorem joinTopToBottomAtLeft_rows {t b : ContentBlock} (ht : t.Wf) (hb : b.Wf) :
    ∀ l ∈ (t.joinTopToBottomAtLeft b).lines,
      Content.width l = max t.width b.width := by
  intro l hl
  unfold ContentBlock.joinTopToBottomAtLeft at hl
  simp only [List.mem_append] at hl
  rcases hl with h | h
  · have := padToWidthAtRight_rows ht (max t.width b.width) l h
    omega
  · have := padToWidthAtRight_rows hb (max t.width b.width) l h
    omega

theorem joinTopToBottomAtLeft_width {t b : ContentBlock} (ht : t.Wf) (hb : b.Wf) :
    (t.joinTopToBottomAtLeft b).width = max t.width b.width := by
  rcases List.eq_nil_or_concat t.lines with htn | _
  · rcases List.eq_nil_or_concat b.lines with hbn | _
    · have h1 := width_of_lines_nil htn
      have h2 := width_of_lines_nil hbn
      unfold ContentBlock.joinTopToBottomAtLeft
      rw [padToWidthAtRight_nil htn, padToWidthAtRight_nil hbn]
      simp [ContentBlock.width, htn, hbn, linesWidth_nil, h1, h2]
    · have hbne : b.lines ≠ [] := by intro hh; simp_all
      apply linesWidth_const (joinTopToBottomAtLeft_rows ht hb)
      unfold ContentBlock.joinTopToBottomAtLeft
      have : (b.padToWidthAtRight (max t.width b.width)).lines ≠ [] := by
        have hlen := padToWidthAtRight_height b (max t.width b.width)
        simp only [ContentBlock.height] at hlen
        intro hh
        rw [hh] at hlen
        simp at hlen
        exact hbne (List.length_eq_zero.mp hlen.symm)
      simp_all
  · have htne : t.lines ≠ [] := by intro hh; simp_all
    apply linesWidth_const (joinTopToBottomAtLeft_rows ht hb)
    unfold ContentBlock.joinTopToBottomAtLeft
    have : (t.padToWidthAtRight (max t.width b.width)).lines ≠ [] := by
      have hlen := padToWidthAtRight_height t (max t.width b.width)
      simp only [ContentBlock.height] at hlen
      intro hh
      rw [hh] at hlen
      simp at hlen
      exact htne (List.length_eq_zero.mp hlen.symm)
    simp_all

theorem joinTopToBottomAtLeft_wf {t b : ContentBlock} (ht : t.Wf) (hb : b.Wf) :
    (t.joinTopToBottomAtLeft b).Wf := by
  intro l hl
  rw [joinTopToBottomAtLeft_width ht hb]
  exact joinTopToBottomAtLeft_rows ht hb l hl

/-- The spacer block `EmptyBlock::new(w, n).fill(Grapheme::SPACE)`. -/
theorem spacer_wf (n w : Nat) :
    (ContentBlock.mk (List.replicate n (Content.repeatN (Content.grapheme Grapheme.space) w))).Wf := by
  intro l hl
  rcases List.eq_of_mem_replicate hl with rfl
  have hrow : Content.width (Content.repeatN (Content.grapheme Grapheme.space) w) = w := by
    rw [Content.repeatN_single, Content.width_replicate_space]
  rw [hrow]
  cases n with
  | zero => cases hl
  | succ k =>
    show w = linesWidth (List.replicate (k + 1) _)
    rw [linesWidth_const (m := w) _ (by simp)]
    intro l2 hl2
    rcases List.eq_of_mem_replicate hl2 with rfl
    exact hrow

theorem spacer_width {n : Nat} (hn : 0 < n) (w : Nat) :
    (ContentBlock.mk (List.replicate n (Content.repeatN (Content.grapheme Grapheme.space) w))).width = w := by
  show linesWidth _ = w
  apply linesWidth_const
  · intro l hl
    rcases List.eq_of_mem_replicate hl with rfl
    rw [Content.repeatN_single, Content.width_replicate_space]
  · simp
    omega

theorem padToHeightAtBottom_height (b : ContentBlock) (h : Nat) :
    (b.padToHeightAtBottom h).height = max b.height h := by
  unfold ContentBlock.padToHeightAtBottom
  by_cases hc : 0 < h - b.height
  · simp only [hc, if_pos]
    rw [joinTopToBottomAtLeft_height]
    show b.height + (List.replicate (h - b.height) _).length = max b.height h
    rw [List.length_replicate]
    omega
  · simp only [hc, if_neg, not_false_iff]
    omega

theorem padToHeightAtBottom_width {b : ContentBlock} (hwf : b.Wf) (h : Nat) :
    (b.padToHeightAtBottom h).width = b.width := by
  unfold ContentBlock.padToHeightAtBottom
  by_cases hc : 0 < h - b.height
  · simp only [hc, if_pos]
    rw [joinTopToBottomAtLeft_width hwf (spacer_wf (h - b.height) b.width)]
    rw [spacer_width hc]
    omega
  · simp only [hc, if_neg, not_false_iff]

theorem padToHeightAtBottom_wf {b : ContentBlock} (hwf : b.Wf) (h : Nat) :
    (b.padToHeightAtBottom h).Wf := by
  unfold ContentBlock.padToHeightAtBottom
  by_cases hc : 0 < h - b.height
  · simp only [hc, if_pos]
    exact joinTopToBottomAtLeft_wf hwf (spacer_wf (h - b.height) b.width)
  · simp only [hc, if_neg, not_false_iff]
    exact hwf

theorem joinLeftToRightAtTop_height (l r : ContentBlock) :
    (l.joinLeftToRightAtTop r).height = max l.height r.height := by
  unfold ContentBlock.joinLeftToRightAtTop
  have h1 := padToHeightAtBottom_height l (max l.height r.height)
  have h2 := padToHeightAtBottom_height r (max l.height r.height)
  simp only [ContentBlock.height] at h1 h2 ⊢
  rw [List.length_zipWith, h1, h2]
  omega

theorem joinLeftToRightAtTop_rows {l r : ContentBlock} (hl : l.Wf) (hr : r.Wf) :
    ∀ x ∈ (l.joinLeftToRightAtTop r).lines,
      Content.width x = l.width + r.width := by
  intro x hx
  unfold ContentBlock.joinLeftToRightAtTop at hx
  rcases mem_zipWith hx with ⟨a, ha, c, hc, rfl⟩
  rw [Content.concatenate, Content.width_append]
  have hwl := padToHeightAtBottom_wf hl (max l.height r.height) a ha
  have hwr := padToHeightAtBottom_wf hr (max l.height r.height) c hc
  rw [hwl, hwr, padToHeightAtBottom_width hl, padToHeightAtBottom_width hr]

theorem joinLeftToRightAtTop_width {l r : ContentBlock} (hl : l.Wf) (hr : r.Wf) :
    (l.joinLeftToRightAtTop r).width = l.width + r.width := by
  by_cases hh : max l.height r.height = 0
  · have hl0 : l.lines = [] := height_zero_lines_nil (by omega)
    have hr0 : r.lines = [] := height_zero_lines_nil (by omega)
    have hwl := width_of_lines_nil hl0
    have hwr := width_of_lines_nil hr0
    have hjoin : (l.joinLeftToRightAtTop r).lines = [] := by
      have hj := joinLeftToRightAtTop_height l r
      simp only [ContentBlock.height] at hj
      rw [hl0, hr0] at hj
      simpa using hj
    rw [width_of_lines_nil hjoin, hwl, hwr]
  · apply linesWidth_const (joinLeftToRightAtTop_rows hl hr)
    intro hnil
    have hj := joinLeftToRightAtTop_height l r
    simp only [ContentBlock.height] at hj hh
    rw [hnil] at hj
    simp at hj
    omega

theorem joinLeftToRightAtTop_wf {l r : ContentBlock} (hl : l.Wf) (hr : r.Wf) :
    (l.joinLeftToRightAtTop r).Wf := by
  intro x hx
  rw [joinLeftToRightAtTop_width hl hr]
  exact joinLeftToRightAtTop_rows hl hr x hx

theorem overlay_some_wf {f b r : ContentBlock} (h : f.overlay b = some r) : r.Wf := by
  unfold ContentBlock.overlay at h
  rcases Option.map_eq_some'.mp h with ⟨ls, _, rfl⟩
  exact fromLines_wf ls

/-! ### Modal and block-level well-formedness -/

def ModalBlock.Wf : ModalBlock → Prop
  | ModalBlock.empty _ => True
  | ModalBlock.content cb => cb.Wf

/-- Rectangularity at the `Block` level: in content mode, every line has
the width reported by `width()` and there are `height()` lines; an
empty-mode block has no lines to constrain. -/
def Block.Rect (b : Block) : Prop :=
  ∀ cb, b.inner = ModalBlock.content cb →
    (∀ l ∈ cb.lines, Content.width l = b.width) ∧ cb.lines.length = b.height

theorem rect_of_wf {b : Block} (h : b.inner.Wf) : b.Rect := by
  intro cb hcb
  cases b with
  | mk inner =>
    cases inner with
    | empty e => cases hcb
    | content cb2 =>
      cases hcb
      exact ⟨h, rfl⟩

theorem wf_of_rect {b : Block} (h : b.Rect) : b.inner.Wf := by
  cases b with
  | mk inner =>
    cases inner with
    | empty e => trivial
    | content cb => exact (h cb rfl).1

theorem rows_replicate_wf (n w : Nat) (g : Grapheme) :
    (ContentBlock.mk (List.replicate n (Content.repeatN (Content.grapheme g) w))).Wf := by
  intro l hl
  rcases List.eq_of_mem_replicate hl with rfl
  cases n with
  | zero => cases hl
  | succ k =>
    show _ = linesWidth _
    rw [linesWidth_const (m := Content.width (Content.repeatN (Content.grapheme g) w)) _ (by simp)]
    intro l2 hl2
    rcases List.eq_of_mem_replicate hl2 with rfl
    rfl

theorem rows_replicate_width {n : Nat} (hn : 0 < n) (w : Nat) (g : Grapheme) :
    (ContentBlock.mk (List.replicate n (Content.repeatN (Content.grapheme g) w))).width
      = w * g.w := by
  show linesWidth _ = w * g.w
  apply linesWidth_const
  · intro l hl
    rcases List.eq_of_mem_replicate hl with rfl
    rw [Content.width_repeatN, Content.width_grapheme, Nat.mul_comm]
  · simp
    omega

theorem rows_replicate_height (n w : Nat) (g : Grapheme) :
    (ContentBlock.mk (List.replicate n (Content.repeatN (Content.grapheme g) w))).height = n := by
  simp [ContentBlock.height]

theorem fillG_ok_iff {e : EmptyBlock} {g : Grapheme} {cb : ContentBlock} :
    e.fillG g = Except.ok cb ↔
      ¬e.height = 0 ∧
        cb = ⟨List.replicate e.height (Content.repeatN (Content.grapheme g) e.width)⟩ := by
  unfold EmptyBlock.fillG
  by_cases h : e.height = 0 <;> simp [h, eq_comm]

theorem fillG_ok_wf {e : EmptyBlock} {g : Grapheme} {cb : ContentBlock}
    (h : e.fillG g = Except.ok cb) :
    cb.Wf ∧ cb.width = e.width * g.w ∧ cb.height = e.height := by
  rcases fillG_ok_iff.mp h with ⟨hh, rfl⟩
  exact ⟨rows_replicate_wf _ _ _,
    rows_replicate_width (Nat.pos_of_ne_zero hh) _ _,
    rows_replicate_height _ _ _⟩

theorem fillG_space_ok_wf {e : EmptyBlock} {cb : ContentBlock}
    (h : e.fillG Grapheme.space = Except.ok cb) :
    cb.Wf ∧ cb.width = e.width ∧ cb.height = e.height := by
  rcases fillG_ok_wf h with ⟨h1, h2, h3⟩
  refine ⟨h1, ?_, h3⟩
  rw [h2]
  simp [Grapheme.space]

theorem modal_joinLR_wf {a b : ModalBlock} {r : ModalBlock}
    (ha : a.Wf) (hb : b.Wf) (h : a.joinLeftToRightAtTop b = some r) : r.Wf := by
  cases a with
  | empty l =>
    cases b with
    | empty rr =>
      simp only [ModalBlock.joinLeftToRightAtTop, Option.some.injEq] at h
      subst h; trivial
    | content rc =>
      simp only [ModalBlock.joinLeftToRightAtTop] at h
      by_cases hw : l.width = 0
      · simp only [hw, if_pos] at h
        cases h; exact hb
      · simp only [hw, if_neg, not_false_iff] at h
        rcases hfill : (l.padToHeightAtBottom (max l.height rc.height)).fillG Grapheme.space with e | cb
        · rw [hfill] at h; cases h
        · rw [hfill] at h
          cases h
          exact joinLeftToRightAtTop_wf (fillG_space_ok_wf hfill).1
            (padToHeightAtBottom_wf hb _)
  | content lc =>
    cases b with
    | empty rr =>
      simp only [ModalBlock.joinLeftToRightAtTop] at h
      by_cases hw : rr.width = 0
      · simp only [hw, if_pos] at h
        cases h; exact ha
      · simp only [hw, if_neg, not_false_iff] at h
        rcases hfill : (rr.padToHeightAtBottom (max lc.height rr.height)).fillG Grapheme.space with e | cb
        · rw [hfill] at h; cases h
        · rw [hfill] at h
          cases h
          exact joinLeftToRightAtTop_wf (padToHeightAtBottom_wf ha _)
            (fillG_space_ok_wf hfill).1
    | content rc =>
      simp only [ModalBlock.joinLeftToRightAtTop, Option.some.injEq] at h
      subst h
      exact joinLeftToRightAtTop_wf ha hb

theorem emptyPadH_height (e : EmptyBlock) (h : Nat) :
    (e.padToHeightAtBottom h).height = max e.height h := rfl

theorem emptyPadH_width (e : EmptyBlock) (h : Nat) :
    (e.padToHeightAtBottom h).width = e.width := rfl

theorem emptyPadW_width (e : EmptyBlock) (w : Nat) :
    (e.padToWidthAtRight w).width = max e.width w := rfl

theorem emptyPadW_height (e : EmptyBlock) (w : Nat) :
    (e.padToWidthAtRight w).height = e.height := rfl

theorem modal_joinLR_width {a b r : ModalBlock}
    (ha : a.Wf) (hb : b.Wf) (h : a.joinLeftToRightAtTop b = some r) :
    r.width = a.width + b.width := by
  cases a with
  | empty l =>
    cases b with
    | empty rr =>
      simp only [ModalBlock.joinLeftToRightAtTop, Option.some.injEq] at h
      subst h; rfl
    | content rc =>
      simp only [ModalBlock.joinLeftToRightAtTop] at h
      by_cases hw : l.width = 0
      · simp only [hw, if_pos] at h
        cases h
        show rc.width = l.width + rc.width
        omega
      · simp only [hw, if_neg, not_false_iff] at h
        rcases hfill : (l.padToHeightAtBottom (max l.height rc.height)).fillG Grapheme.space with e | cb
        · rw [hfill] at h; cases h
        · rw [hfill] at h
          cases h
          show (cb.joinLeftToRightAtTop _).width = l.width + rc.width
          rcases fillG_space_ok_wf hfill with ⟨hcwf, hcw, _⟩
          rw [joinLeftToRightAtTop_width hcwf (padToHeightAtBottom_wf hb _), hcw,
            padToHeightAtBottom_width hb]
          rfl
  | content lc =>
    cases b with
    | empty rr =>
      simp only [ModalBlock.joinLeftToRightAtTop] at h
      by_cases hw : rr.width = 0
      · simp only [hw, if_pos] at h
        cases h
        show lc.width = lc.width + rr.width
        omega
      · simp only [hw, if_neg, not_false_iff] at h
        rcases hfill : (rr.padToHeightAtBottom (max lc.height rr.height)).fillG Grapheme.space with e | cb
        · rw [hfill] at h; cases h
        · rw [hfill] at h
          cases h
          show ((lc.padToHeightAtBottom _).joinLeftToRightAtTop cb).width = lc.width + rr.width
          rcases fillG_space_ok_wf hfill with ⟨hcwf, hcw, _⟩
          rw [joinLeftToRightAtTop_width (padToHeightAtBottom_wf ha _) hcwf, hcw,
            padToHeightAtBottom_width ha]
          rfl
    | content rc =>
      simp only [ModalBlock.joinLeftToRightAtTop, Option.some.injEq] at h
      subst h
      exact joinLeftToRightAtTop_width ha hb

theorem modal_joinLR_height {a b r : ModalBlock}
    (h : a.joinLeftToRightAtTop b = some r)
    (hpa : ∀ e cb, a = ModalBlock.empty e → b = ModalBlock.content cb → ¬e.width = 0)
    (hpb : ∀ cb e, a = ModalBlock.content cb → b = ModalBlock.empty e → ¬e.width = 0) :
    r.height = max a.height b.height := by
  cases a with
  | empty l =>
    cases b with
    | empty rr =>
      simp only [ModalBlock.joinLeftToRightAtTop, Option.some.injEq] at h
      subst h; rfl
    | content rc =>
      have hw : ¬l.width = 0 := hpa l rc rfl rfl
      simp only [ModalBlock.joinLeftToRightAtTop, hw, if_neg, not_false_iff] at h
      rcases hfill : (l.padToHeightAtBottom (max l.height rc.height)).fillG Grapheme.space with e | cb
      · rw [hfill] at h; cases h
      · rw [hfill] at h
        cases h
        show (cb.joinLeftToRightAtTop _).height = max l.height rc.height
        rcases fillG_space_ok_wf hfill with ⟨_, _, hch⟩
        rw [joinLeftToRightAtTop_height, hch, padToHeightAtBottom_height]
        show max (max l.height (max l.height rc.height)) _ = _
        omega
  | content lc =>
    cases b with
    | empty rr =>
      have hw : ¬rr.width = 0 := hpb lc rr rfl rfl
      simp only [ModalBlock.joinLeftToRightAtTop, hw, if_neg, not_false_iff] at h
      rcases hfill : (rr.padToHeightAtBottom (max lc.height rr.height)).fillG Grapheme.space with e | cb
      · rw [hfill] at h; cases h
      · rw [hfill] at h
        cases h
        show ((lc.padToHeightAtBottom _).joinLeftToRightAtTop cb).height = max lc.height rr.height
        rcases fillG_space_ok_wf hfill with ⟨_, _, hch⟩
        rw [joinLeftToRightAtTop_height, hch, padToHeightAtBottom_height,
          emptyPadH_height]
        omega
    | content rc =>
      simp only [ModalBlock.joinLeftToRightAtTop, Option.some.injEq] at h
      subst h
      exact joinLeftToRightAtTop_height lc rc

theorem modal_joinTB_wf {a b r : ModalBlock}
    (ha : a.Wf) (hb : b.Wf) (h : a.joinTopToBottomAtLeft b = some r) : r.Wf := by
  cases a with
  | empty t =>
    cases b with
    | empty bb =>
      simp only [ModalBlock.joinTopToBottomAtLeft, Option.some.injEq] at h
      subst h; trivial
    | content bc =>
      simp only [ModalBlock.joinTopToBottomAtLeft] at h
      by_cases hh : t.height = 0
      · simp only [hh, if_pos] at h
        cases h; exact hb
      · simp only [hh, if_neg, not_false_iff] at h
        rcases hfill : (t.padToWidthAtRight (max t.width bc.width)).fillG Grapheme.space with e | cb
        · rw [hfill] at h; cases h
        · rw [hfill] at h
          cases h
          exact joinTopToBottomAtLeft_wf (fillG_space_ok_wf hfill).1
            (padToWidthAtRight_wf hb _)
  | content tc =>
    cases b with
    | empty bb =>
      simp only [ModalBlock.joinTopToBottomAtLeft] at h
      by_cases hh : bb.height = 0
      · simp only [hh, if_pos] at h
        cases h; exact ha
      · simp only [hh, if_neg, not_false_iff] at h
        rcases hfill : (bb.padToWidthAtRight (max tc.width bb.width)).fillG Grapheme.space with e | cb
        · rw [hfill] at h; cases h
        · rw [hfill] at h
          cases h
          exact joinTopToBottomAtLeft_wf (padToWidthAtRight_wf ha _)
            (fillG_space_ok_wf hfill).1
    | content bc =>
      simp only [ModalBlock.joinTopToBottomAtLeft, Option.some.injEq] at h
      subst h
      exact joinTopToBottomAtLeft_wf ha hb

theorem modal_joinTB_height {a b r : ModalBlock}
    (h : a.joinTopToBottomAtLeft b = some r) :
    r.height = a.height + b.height := by
  cases a with
  | empty t =>
    cases b with
    | empty bb =>
      simp only [ModalBlock.joinTopToBottomAtLeft, Option.some.injEq] at h
      subst h; rfl
    | content bc =>
      simp only [ModalBlock.joinTopToBottomAtLeft] at h
      by_cases hh : t.height = 0
      · simp only [hh, if_pos] at h
        cases h
        show bc.height = t.height + bc.height
        omega
      · simp only [hh, if_neg, not_false_iff] at h
        rcases hfill : (t.padToWidthAtRight (max t.width bc.width)).fillG Grapheme.space with e | cb
        · rw [hfill] at h; cases h
        · rw [hfill] at h
          cases h
          show (cb.joinTopToBottomAtLeft _).height = t.height + bc.height
          rcases fillG_space_ok_wf hfill with ⟨_, _, hch⟩
          rw [joinTopToBottomAtLeft_height, hch, emptyPadW_height,
            padToWidthAtRight_height]
  | content tc =>
    cases b with
    | empty bb =>
      simp only [ModalBlock.joinTopToBottomAtLeft] at h
      by_cases hh : bb.height = 0
      · simp only [hh, if_pos] at h
        cases h
        show tc.height = tc.height + bb.height
        omega
      · simp only [hh, if_neg, not_false_iff] at h
        rcases hfill : (bb.padToWidthAtRight (max tc.width bb.width)).fillG Grapheme.space with e | cb
        · rw [hfill] at h; cases h
        · rw [hfill] at h
          cases h
          show ((tc.padToWidthAtRight _).joinTopToBottomAtLeft cb).height = tc.height + bb.height
          rcases fillG_space_ok_wf hfill with ⟨_, _, hch⟩
          rw [joinTopToBottomAtLeft_height, hch, emptyPadW_height,
            padToWidthAtRight_height]
    | content bc =>
      simp only [ModalBlock.joinTopToBottomAtLeft, Option.some.injEq] at h
      subst h
      exact joinTopToBottomAtLeft_height tc bc

theorem modal_joinTB_width {a b r : ModalBlock}
    (ha : a.Wf) (hb : b.Wf) (h : a.joinTopToBottomAtLeft b = some r)
    (hpa : ∀ e cb, a = ModalBlock.empty e → b = ModalBlock.content cb → ¬e.height = 0)
    (hpb : ∀ cb e, a = ModalBlock.content cb → b = ModalBlock.empty e → ¬e.height = 0) :
    r.width = max a.width b.width := by
  cases a with
  | empty t =>
    cases b with
    | empty bb =>
      simp only [ModalBlock.joinTopToBottomAtLeft, Option.some.injEq] at h
      subst h; rfl
    | content bc =>
      have hh : ¬t.height = 0 := hpa t bc rfl rfl
      simp only [ModalBlock.joinTopToBottomAtLeft, hh, if_neg, not_false_iff] at h
      rcases hfill : (t.padToWidthAtRight (max t.width bc.width)).fillG Grapheme.space with e | cb
      · rw [hfill] at h; cases h
      · rw [hfill] at h
        cases h
        show (cb.joinTopToBottomAtLeft _).width = max t.width bc.width
        rcases fillG_space_ok_wf hfill with ⟨hcwf, hcw, _⟩
        rw [joinTopToBottomAtLeft_width hcwf (padToWidthAtRight_wf hb _), hcw,
          emptyPadW_width]
        rcases List.eq_nil_or_concat bc.lines with hnil | _
        · rw [padToWidthAtRight_nil hnil]
          have := width_of_lines_nil hnil
          omega
        · have hne : bc.lines ≠ [] := by intro hn; simp_all
          rw [padToWidthAtRight_width hb _ hne]
          omega
  | content tc =>
    cases b with
    | empty bb =>
      have hh : ¬bb.height = 0 := hpb tc bb rfl rfl
      simp only [ModalBlock.joinTopToBottomAtLeft, hh, if_neg, not_false_iff] at h
      rcases hfill : (bb.padToWidthAtRight (max tc.width bb.width)).fillG Grapheme.space with e | cb
      · rw [hfill] at h; cases h
      · rw [hfill] at h
        cases h
        show ((tc.padToWidthAtRight _).joinTopToBottomAtLeft cb).width = max tc.width bb.width
        rcases fillG_space_ok_wf hfill with ⟨hcwf, hcw, _⟩
        rw [joinTopToBottomAtLeft_width (padToWidthAtRight_wf ha _) hcwf, hcw,
          emptyPadW_width]
        rcases List.eq_nil_or_concat tc.lines with hnil | _
        · rw [padToWidthAtRight_nil hnil]
          have := width_of_lines_nil hnil
          omega
        · have hne : tc.lines ≠ [] := by intro hn; simp_all
          rw [padToWidthAtRight_width ha _ hne]
          omega
    | content bc =>
      simp only [ModalBlock.joinTopToBottomAtLeft, Option.some.injEq] at h
      subst h
      exact joinTopToBottomAtLeft_width ha hb

theorem modal_overlay_wf {a b r : ModalBlock} (h : a.overlay b = some r) : r.Wf := by
  cases a with
  | empty f =>
    cases b with
    | empty bb =>
      simp only [ModalBlock.overlay, Option.some.injEq] at h
      subst h; trivial
    | content bc =>
      simp only [ModalBlock.overlay] at h
      rcases hfill : ((f.padToWidthAtRight (max f.width bc.width)).padToHeightAtBottom
          (max f.height bc.height)).fillG Grapheme.space with e | cb
      · rw [hfill] at h; cases h
      · rw [hfill] at h
        rcases Option.map_eq_some'.mp h with ⟨cb2, hcb2, rfl⟩
        exact overlay_some_wf hcb2
  | content fc =>
    cases b with
    | empty bb =>
      simp only [ModalBlock.overlay] at h
      rcases hfill : ((bb.padToWidthAtRight (max fc.width bb.width)).padToHeightAtBottom
          (max fc.height bb.height)).fillG Grapheme.space with e | cb
      · rw [hfill] at h; cases h
      · rw [hfill] at h
        rcases Option.map_eq_some'.mp h with ⟨cb2, hcb2, rfl⟩
        exact overlay_some_wf hcb2
    | content bc =>
      simp only [ModalBlock.overlay] at h
      rcases Option.map_eq_some'.mp h with ⟨cb2, hcb2, rfl⟩
      exact overlay_some_wf hcb2

/-! ### Block-level rectangularity, operation by operation -/

theorem withContent_rect (c : Content) : (Block.withContent c).Rect :=
  rect_of_wf (fromLines_wf (Content.intoLines c))

theorem push_rect (b : Block) (c : Content) : (b.push c).Rect := by
  unfold Block.push
  cases b with
  | mk inner =>
    cases inner with
    | content cb => exact rect_of_wf (fromLines_wf _)
    | empty e =>
      show (match e.fillG Grapheme.space with
        | Except.ok cb => (⟨ModalBlock.content (cb.push c)⟩ : Block)
        | Except.error e2 =>
          ⟨ModalBlock.content ((ContentBlock.padToWidthAtRight ⟨[]⟩ e2.width).push c)⟩).Rect
      rcases hfill : e.fillG Grapheme.space with e2 | cb
      · exact rect_of_wf (fromLines_wf _)
      · exact rect_of_wf (fromLines_wf _)

theorem fillG_rect (b : Block) (g : Grapheme) : (b.fillG g).Rect := by
  unfold Block.fillG
  rcases hfill : EmptyBlock.fillG ⟨b.width, b.height⟩ g with e | cb
  · exact rect_of_wf trivial
  · exact rect_of_wf (fillG_ok_wf hfill).1

theorem fillContent_rect {b r : Block} {c : Content}
    (h : b.fillContent c = some r) : r.Rect := by
  unfold Block.fillContent at h
  rcases hfill : EmptyBlock.fillContent ⟨b.width, b.height⟩ c with _ | res
  · rw [hfill] at h; cases h
  · rw [hfill] at h
    cases res with
    | error e =>
      cases h
      exact rect_of_wf trivial
    | ok cb =>
      cases h
      apply rect_of_wf
      show cb.Wf
      unfold EmptyBlock.fillContent at hfill
      by_cases h0 : b.height = 0
      · rw [if_pos h0] at hfill
        simp at hfill
      · rw [if_neg h0] at hfill
        by_cases hn : (Content.intoLines c).length = 0
        · rw [if_pos hn] at hfill
          cases hfill
        · rw [if_neg hn] at hfill
          rcases Option.map_eq_some'.mp hfill with ⟨ls, _, hout⟩
          cases hout
          exact fromLines_wf ls

theorem padToWidthAtRight_block_rect {b : Block} (hb : b.Rect) (w : Nat) :
    (b.padToWidthAtRight w).Rect := by
  cases b with
  | mk inner =>
    cases inner with
    | empty e => exact rect_of_wf trivial
    | content cb => exact rect_of_wf (padToWidthAtRight_wf (wf_of_rect hb) w)

theorem padToHeightAtBottom_block_rect {b : Block} (hb : b.Rect) (h : Nat) :
    (b.padToHeightAtBottom h).Rect := by
  cases b with
  | mk inner =>
    cases inner with
    | empty e => exact rect_of_wf trivial
    | content cb => exact rect_of_wf (padToHeightAtBottom_wf (wf_of_rect hb) h)

theorem joinLR_block_rect {a b r : Block} (ha : a.Rect) (hb : b.Rect)
    (h : a.joinLeftToRightAtTop b = some r) : r.Rect := by
  rcases Option.map_eq_some'.mp h with ⟨m, hm, rfl⟩
  exact rect_of_wf (modal_joinLR_wf (wf_of_rect ha) (wf_of_rect hb) hm)

theorem joinTB_block_rect {a b r : Block} (ha : a.Rect) (hb : b.Rect)
    (h : a.joinTopToBottomAtLeft b = some r) : r.Rect := by
  rcases Option.map_eq_some'.mp h with ⟨m, hm, rfl⟩
  exact rect_of_wf (modal_joinTB_wf (wf_of_rect ha) (wf_of_rect hb) hm)

theorem overlay_block_rect {a b r : Block}
    (h : a.overlay b = some r) : r.Rect := by
  rcases Option.map_eq_some'.mp h with ⟨m, hm, rfl⟩
  exact rect_of_wf (modal_overlay_wf hm)

theorem padAtLeft_rect {b r : Block} (hb : b.Rect) {n : Nat}
    (h : b.padAtLeft n = some r) : r.Rect :=
  joinLR_block_rect (fillG_rect _ _) hb h

theorem padAtRight_rect {b r : Block} (hb : b.Rect) {n : Nat}
    (h : b.padAtRight n = some r) : r.Rect :=
  joinLR_block_rect hb (fillG_rect _ _) h

theorem padAtTop_rect {b r : Block} (hb : b.Rect) {n : Nat}
    (h : b.padAtTop n = some r) : r.Rect :=
  joinTB_block_rect (fillG_rect _ _) hb h

theorem padAtBottom_rect {b r : Block} (hb : b.Rect) {n : Nat}
    (h : b.padAtBottom n = some r) : r.Rect :=
  joinTB_block_rect hb (fillG_rect _ _) h

/-! ### Claim C1 -/

/-- C1: Rectangularity invariant.  For every content-mode block obtained
by construction (`with_content`, `push`, `fill` with a grapheme or
content filler) or by any pad, join, or overlay operation (given
rectangular operands, which all constructions produce), every row's
computed display width equals the block's `width()` and the number of
rows equals the block's `height()`. -/
theorem c1_rectangularity :
    (∀ c, (Block.withContent c).Rect) ∧
    (∀ b c, (Block.push b c).Rect) ∧
    (∀ b g, (Block.fillG b g).Rect) ∧
    (∀ b c r, Block.fillContent b c = some r → r.Rect) ∧
    (∀ b w, b.Rect → (Block.padToWidthAtRight b w).Rect) ∧
    (∀ b h, b.Rect → (Block.padToHeightAtBottom b h).Rect) ∧
    (∀ b n r, b.Rect → Block.padAtLeft b n = some r → r.Rect) ∧
    (∀ b n r, b.Rect → Block.padAtRight b n = some r → r.Rect) ∧
    (∀ b n r, b.Rect → Block.padAtTop b n = some r → r.Rect) ∧
    (∀ b n r, b.Rect → Block.padAtBottom b n = some r → r.Rect) ∧
    (∀ b w r, b.Rect → Block.padToWidthAtLeft b w = some r → r.Rect) ∧
    (∀ b h r, b.Rect → Block.padToHeightAtTop b h = some r → r.Rect) ∧
    (∀ a b r, a.Rect → b.Rect → Block.joinLeftToRightAtTop a b = some r → r.Rect) ∧
    (∀ a b r, a.Rect → b.Rect → Block.joinTopToBottomAtLeft a b = some r → r.Rect) ∧
    (∀ a b r, a.Rect → b.Rect → Block.overlay a b = some r → r.Rect) := by
  refine ⟨withContent_rect, push_rect, fillG_rect,
    fun b c r h => fillContent_rect h,
    fun b w hb => padToWidthAtRight_block_rect hb w,
    fun b h hb => padToHeightAtBottom_block_rect hb h,
    fun b n r hb h => padAtLeft_rect hb h,
    fun b n r hb h => padAtRight_rect hb h,
    fun b n r hb h => padAtTop_rect hb h,
    fun b n r hb h => padAtBottom_rect hb h,
    fun b w r hb h => padAtLeft_rect hb h,
    fun b h r hb hj => padAtTop_rect hb hj,
    fun a b r ha hb h => joinLR_block_rect ha hb h,
    fun a b r ha hb h => joinTB_block_rect ha hb h,
    fun a b r ha hb h => overlay_block_rect h⟩

/-- Witness for C1: the rectangularity of the concrete join of
`with_content("ab")` and `with_content("x")`, obtained by applying the
claim theorem at those inputs. -/
theorem c1_rectangularity_witness :
    Block.Rect ⟨ModalBlock.content ⟨[strContent "abx"]⟩⟩ :=
  c1_rectangularity.2.2.2.2.2.2.2.2.2.2.2.2.1
    (Block.withContent (strContent "ab")) (Block.withContent (strContent "x")) _
    (withContent_rect _) (withContent_rect _) (by decide)

/-! ### Claim C2 -/

/-- C2 counterexample: for `a = Block::with_dimensions(0, 2)` (an empty
block of zero width) and `b = Block::with_content("x")`, the left-to-right
join passes `b` through unchanged, so its height is `1` and not
`max(height(a), height(b)) = 2` as the claim requires. -/
theorem c2_counterexample :
    ((Block.withDimensions 0 2).joinLeftToRightAtTop
        (Block.withContent (strContent "x"))).map Block.height = some 1 ∧
      max (Block.withDimensions 0 2).height
        (Block.withContent (strContent "x")).height = 2 := by
  constructor
  · decide
  · decide

/-- C2 (amended): for rectangular blocks, the left-to-right join
satisfies `width = width(a) + width(b)` whenever it returns, and
`height = max(height(a), height(b))` unless one operand is a zero-width
empty block joined with a content block, in which case the content
operand passes through unchanged; symmetrically, the top-to-bottom join
satisfies `height = height(a) + height(b)` whenever it returns, and
`width = max(width(a), width(b))` except for the zero-height empty
pass-through. -/
theorem c2_join_dimension_laws :
    (∀ a b r, a.Rect → b.Rect → Block.joinLeftToRightAtTop a b = some r →
      r.width = a.width + b.width) ∧
    (∀ a b r, Block.joinLeftToRightAtTop a b = some r →
      ¬(a.isEmpty = true ∧ a.width = 0 ∧ b.isEmpty = false) →
      ¬(b.isEmpty = true ∧ b.width = 0 ∧ a.isEmpty = false) →
      r.height = max a.height b.height) ∧
    (∀ a b r, Block.joinTopToBottomAtLeft a b = some r →
      r.height = a.height + b.height) ∧
    (∀ a b r, a.Rect → b.Rect → Block.joinTopToBottomAtLeft a b = some r →
      ¬(a.isEmpty = true ∧ a.height = 0 ∧ b.isEmpty = false) →
      ¬(b.isEmpty = true ∧ b.height = 0 ∧ a.isEmpty = false) →
      r.width = max a.width b.width) := by
  refine ⟨?_, ?_, ?_, ?_⟩
  · intro a b r ha hb h
    rcases Option.map_eq_some'.mp h with ⟨m, hm, rfl⟩
    exact modal_joinLR_width (wf_of_rect ha) (wf_of_rect hb) hm
  · intro a b r h hpa hpb
    rcases Option.map_eq_some'.mp h with ⟨m, hm, rfl⟩
    apply modal_joinLR_height hm
    · intro e cb he hcb
      intro hw
      apply hpa
      refine ⟨?_, ?_, ?_⟩
      · show a.inner.isEmpty = true
        rw [he]; rfl
      · show a.inner.width = 0
        rw [he]; exact hw
      · show b.inner.isEmpty = false
        rw [hcb]; rfl
    · intro cb e hcb he
      intro hw
      apply hpb
      refine ⟨?_, ?_, ?_⟩
      · show b.inner.isEmpty = true
        rw [he]; rfl
      · show b.inner.width = 0
        rw [he]; exact hw
      · show a.inner.isEmpty = false
        rw [hcb]; rfl
  · intro a b r h
    rcases Option.map_eq_some'.mp h with ⟨m, hm, rfl⟩
    exact modal_joinTB_height hm
  · intro a b r ha hb h hpa hpb
    rcases Option.map_eq_some'.mp h with ⟨m, hm, rfl⟩
    apply modal_joinTB_width (wf_of_rect ha) (wf_of_rect hb) hm
    · intro e cb he hcb
      intro hh
      apply hpa
      refine ⟨?_, ?_, ?_⟩
      · show a.inner.isEmpty = true
        rw [he]; rfl
      · show a.inner.height = 0
        rw [he]; exact hh
      · show b.inner.isEmpty = false
        rw [hcb]; rfl
    · intro cb e hcb he
      intro hh
      apply hpb
      refine ⟨?_, ?_, ?_⟩
      · show b.inner.isEmpty = true
        rw [he]; rfl
      · show b.inner.height = 0
        rw [he]; exact hh
      · show a.inner.isEmpty = false
        rw [hcb]; rfl

/-- Witness for C2: the dimension laws applied to the concrete join of
`with_content("ab\ncd")` and `with_content("X")`. -/
theorem c2_join_dimension_laws_witness :
    Block.width ⟨ModalBlock.content ⟨[strContent "abX", strContent "cd "]⟩⟩ =
        Block.width (Block.withContent (strContent "ab\ncd")) +
          Block.width (Block.withContent (strContent "X")) ∧
      Block.height ⟨ModalBlock.content ⟨[strContent "abX", strContent "cd "]⟩⟩ =
        max (Block.height (Block.withContent (strContent "ab\ncd")))
          (Block.height (Block.withContent (strContent "X"))) :=
  ⟨c2_join_dimension_laws.1 (Block.withContent (strContent "ab\ncd"))
      (Block.withContent (strContent "X")) _
      (withContent_rect _) (withContent_rect _) (by decide),
    c2_join_dimension_laws.2.1 (Block.withContent (strContent "ab\ncd"))
      (Block.withContent (strContent "X")) _
      (by decide) (by decide) (by decide)⟩

/-! ### Claim C3 -/

/-- C3: the pad and join operations are not total.  At
`Block::with_dimensions(1, 0).join_left_to_right_at_top(Block::with_content(""))`
the mixed-mode branch takes the non-zero-width path, pads both operands
to height `max(0, 0) = 0`, and then unwraps the failed
`fill(Grapheme::SPACE)` — a panic (modelled by `none`), contradicting
the code's own comment that the fill cannot fail there.
`Block::with_content("").pad_at_left(1)` reaches the same panic, and
`Block::with_dimensions(2, 3).pad_to_width_at_left(2)` — a pad to the
current width — materializes the empty block into content mode instead
of returning it unchanged. -/
theorem c3_join_pad_panics :
    (Block.withDimensions 1 0).joinLeftToRightAtTop
        (Block.withContent (strContent "")) = none ∧
      (Block.withContent (strContent "")).padAtLeft 1 = none ∧
      ¬(Block.withDimensions 2 3).padToWidthAtLeft 2 =
        some (Block.withDimensions 2 3) := by
  refine ⟨by decide, by decide, by decide⟩

/-! ### Claim C5 -/

/-- C5: filling a zero-height block is a no-op, not an error: for every
width `w`, every content filler `c` and every grapheme filler `g`,
`fill(Block::with_dimensions(w, 0), x)` returns the block unchanged —
still empty, with width `w` and height `0`. -/
theorem c5_fill_zero_height_noop (w : Nat) (c : Content) (g : Grapheme) :
    (Block.withDimensions w 0).fillContent c = some (Block.withDimensions w 0) ∧
      (Block.withDimensions w 0).fillG g = Block.withDimensions w 0 ∧
      (Block.withDimensions w 0).width = w ∧
      (Block.withDimensions w 0).height = 0 ∧
      (Block.withDimensions w 0).isEmpty = true := by
  refine ⟨?_, ?_, rfl, rfl, rfl⟩
  · show Block.fillContent ⟨ModalBlock.empty ⟨w, 0⟩⟩ c = _
    unfold Block.fillContent EmptyBlock.fillContent
    simp
    rfl
  · show Block.fillG ⟨ModalBlock.empty ⟨w, 0⟩⟩ g = _
    unfold Block.fillG EmptyBlock.fillG
    simp
    rfl

/-! ### Claim C6 -/

/-- C6: `truncate` does not respect the column budget.  For the plain
content consisting of the single double-width cluster `"日"`,
`truncate(1)` keeps the cluster (the code takes the first `width`
grapheme clusters), so the result has display width `2 > 1`, while the
claim requires the longest prefix fitting within one column (the empty
prefix).  `Styled::truncate` computes its cut in columns and then
passes the remaining column budget to this cluster-counting truncate,
so the spec's column semantics is the evident intent and the
cluster-counting implementation the slip. -/
theorem c6_truncate_counts_clusters :
    Content.truncate [(⟨"日", 2⟩ : Grapheme)] 1 = [(⟨"日", 2⟩ : Grapheme)] ∧
      Content.width [(⟨"日", 2⟩ : Grapheme)] = 2 := by
  refine ⟨rfl, rfl⟩

/-! ### Claim C9 -/

/-- C9 counterexample: the scenario's render is wrong — rendering trims
the trailing whitespace of each row, so the joined block renders as
`"abX\ncd\n"`, not `"abX\ncd \n"`. -/
theorem c9_counterexample :
    ¬((Block.withContent (strContent "ab\ncd")).joinLeftToRightAtTop
        (Block.withContent (strContent "X"))).map Block.render =
      some "abX\ncd \n" := by
  decide

/-- C9 (amended): joining `Block::with_content("ab\ncd")`
left-to-right-at-top with `Block::with_content("X")` produces a block
whose rows are `"abX"` and `"cd "` (the right operand padded to height
2 with a one-space blank row), and rendering that block yields
`"abX\ncd\n"` (the trailing space of `"cd "` is trimmed by render). -/
theorem c9_scenario :
    ((Block.withContent (strContent "ab\ncd")).joinLeftToRightAtTop
        (Block.withContent (strContent "X"))).map
      (fun r => (Block.rowStrings r, Block.render r)) =
      some (["abX", "cd "], "abX\ncd\n") := by
  decide

/-! ### Claim C4 -/

theorem modal_joinLR_content {a b r : ModalBlock}
    (h : a.joinLeftToRightAtTop b = some r)
    (hc : a.isEmpty = false ∨ b.isEmpty = false) : r.isEmpty = false := by
  cases a with
  | empty l =>
    cases b with
    | empty rr => rcases hc with hc | hc <;> cases hc
    | content rc =>
      simp only [ModalBlock.joinLeftToRightAtTop] at h
      by_cases hw : l.width = 0
      · simp only [hw, if_pos] at h
        cases h; rfl
      · simp only [hw, if_neg, not_false_iff] at h
        rcases hfill : (l.padToHeightAtBottom (max l.height rc.height)).fillG Grapheme.space with e | cb
        · rw [hfill] at h; cases h
        · rw [hfill] at h; cases h; rfl
  | content lc =>
    cases b with
    | empty rr =>
      simp only [ModalBlock.joinLeftToRightAtTop] at h
      by_cases hw : rr.width = 0
      · simp only [hw, if_pos] at h
        cases h; rfl
      · simp only [hw, if_neg, not_false_iff] at h
        rcases hfill : (rr.padToHeightAtBottom (max lc.height rr.height)).fillG Grapheme.space with e | cb
        · rw [hfill] at h; cases h
        · rw [hfill] at h; cases h; rfl
    | content rc =>
      simp only [ModalBlock.joinLeftToRightAtTop, Option.some.injEq] at h
      subst h; rfl

theorem modal_joinTB_content {a b r : ModalBlock}
    (h : a.joinTopToBottomAtLeft b = some r)
    (hc : a.isEmpty = false ∨ b.isEmpty = false) : r.isEmpty = false := by
  cases a with
  | empty t =>
    cases b with
    | empty bb => rcases hc with hc | hc <;> cases hc
    | content bc =>
      simp only [ModalBlock.joinTopToBottomAtLeft] at h
      by_cases hh : t.height = 0
      · simp only [hh, if_pos] at h
        cases h; rfl
      · simp only [hh, if_neg, not_false_iff] at h
        rcases hfill : (t.padToWidthAtRight (max t.width bc.width)).fillG Grapheme.space with e | cb
        · rw [hfill] at h; cases h
        · rw [hfill] at h; cases h; rfl
  | content tc =>
    cases b with
    | empty bb =>
      simp only [ModalBlock.joinTopToBottomAtLeft] at h
      by_cases hh : bb.height = 0
      · simp only [hh, if_pos] at h
        cases h; rfl
      · simp only [hh, if_neg, not_false_iff] at h
        rcases hfill : (bb.padToWidthAtRight (max tc.width bb.width)).fillG Grapheme.space with e | cb
        · rw [hfill] at h; cases h
        · rw [hfill] at h; cases h; rfl
    | content bc =>
      simp only [ModalBlock.joinTopToBottomAtLeft, Option.some.injEq] at h
      subst h; rfl

theorem modal_overlay_content {a b r : ModalBlock}
    (h : a.overlay b = some r)
    (hc : a.isEmpty = false ∨ b.isEmpty = false) : r.isEmpty = false := by
  cases a with
  | empty f =>
    cases b with
    | empty bb => rcases hc with hc | hc <;> cases hc
    | content bc =>
      simp only [ModalBlock.overlay] at h
      rcases hfill : ((f.padToWidthAtRight (max f.width bc.width)).padToHeightAtBottom
          (max f.height bc.height)).fillG Grapheme.space with e | cb
      · rw [hfill] at h; cases h
      · rw [hfill] at h
        rcases Option.map_eq_some'.mp h with ⟨cb2, _, rfl⟩
        rfl
  | content fc =>
    cases b with
    | empty bb =>
      simp only [ModalBlock.overlay] at h
      rcases hfill : ((bb.padToWidthAtRight (max fc.width bb.width)).padToHeightAtBottom
          (max fc.height bb.height)).fillG Grapheme.space with e | cb
      · rw [hfill] at h; cases h
      · rw [hfill] at h
        rcases Option.map_eq_some'.mp h with ⟨cb2, _, rfl⟩
        rfl
    | content bc =>
      simp only [ModalBlock.overlay] at h
      rcases Option.map_eq_some'.mp h with ⟨cb2, _, rfl⟩
      rfl

/-- C4 counterexample: `Block::with_content("")` is a zero-sized
content-mode block, and filling it (fill rebuilds from the recorded
dimensions) yields an empty-mode block: `Content` does revert to
`Empty`. -/
theorem c4_counterexample :
    (Block.withContent (strContent "")).isEmpty = false ∧
      ((Block.withContent (strContent "")).fillG ⟨"x", 1⟩).isEmpty = true := by
  refine ⟨rfl, rfl⟩

/-- C4 (amended): push, pad, join, and overlay never turn a
content-mode block into an empty-mode block, and fill preserves content
mode for blocks of positive height; but refilling a zero-height
content-mode block yields an empty-mode block (fill reconstructs from
the recorded dimensions). -/
theorem c4_mode_preservation :
    (∀ b c, (Block.push b c).isEmpty = false) ∧
    (∀ b w, b.isEmpty = false → (Block.padToWidthAtRight b w).isEmpty = false) ∧
    (∀ b h, b.isEmpty = false → (Block.padToHeightAtBottom b h).isEmpty = false) ∧
    (∀ b n r, b.isEmpty = false → Block.padAtLeft b n = some r → r.isEmpty = false) ∧
    (∀ b n r, b.isEmpty = false → Block.padAtRight b n = some r → r.isEmpty = false) ∧
    (∀ b n r, b.isEmpty = false → Block.padAtTop b n = some r → r.isEmpty = false) ∧
    (∀ b n r, b.isEmpty = false → Block.padAtBottom b n = some r → r.isEmpty = false) ∧
    (∀ b w r, b.isEmpty = false → Block.padToWidthAtLeft b w = some r → r.isEmpty = false) ∧
    (∀ b h r, b.isEmpty = false → Block.padToHeightAtTop b h = some r → r.isEmpty = false) ∧
    (∀ a b r, Block.joinLeftToRightAtTop a b = some r →
      a.isEmpty = false ∨ b.isEmpty = false → r.isEmpty = false) ∧
    (∀ a b r, Block.joinTopToBottomAtLeft a b = some r →
      a.isEmpty = false ∨ b.isEmpty = false → r.isEmpty = false) ∧
    (∀ a b r, Block.overlay a b = some r →
      a.isEmpty = false ∨ b.isEmpty = false → r.isEmpty = false) ∧
    (∀ b g, 0 < b.height → (Block.fillG b g).isEmpty = false) ∧
    (∀ b c r, 0 < b.height → Block.fillContent b c = some r →
      r.isEmpty = false) := by
  have hjoin : ∀ a b r : Block, Block.joinLeftToRightAtTop a b = some r →
      a.isEmpty = false ∨ b.isEmpty = false → r.isEmpty = false := by
    intro a b r h hc
    rcases Option.map_eq_some'.mp h with ⟨m, hm, rfl⟩
    exact modal_joinLR_content hm hc
  have hjoinTB : ∀ a b r : Block, Block.joinTopToBottomAtLeft a b = some r →
      a.isEmpty = false ∨ b.isEmpty = false → r.isEmpty = false := by
    intro a b r h hc
    rcases Option.map_eq_some'.mp h with ⟨m, hm, rfl⟩
    exact modal_joinTB_content hm hc
  have hfillg : ∀ (b : Block) (g : Grapheme), 0 < b.height →
      (Block.fillG b g).isEmpty = false := by
    intro b g hh
    unfold Block.fillG
    rcases hfill : EmptyBlock.fillG ⟨b.width, b.height⟩ g with e | cb
    · exfalso
      unfold EmptyBlock.fillG at hfill
      by_cases h0 : (⟨b.width, b.height⟩ : EmptyBlock).height = 0
      · have hb0 : b.height = 0 := h0
        omega
      · rw [if_neg h0] at hfill
        cases hfill
    · rfl
  refine ⟨?_, ?_, ?_, ?_, ?_, ?_, ?_, ?_, ?_, hjoin, hjoinTB, ?_, hfillg, ?_⟩
  · intro b c
    unfold Block.push
    cases b with
    | mk inner =>
      cases inner with
      | content cb => rfl
      | empty e =>
        show (match e.fillG Grapheme.space with
          | Except.ok cb => (⟨ModalBlock.content (cb.push c)⟩ : Block)
          | Except.error e2 =>
            ⟨ModalBlock.content ((ContentBlock.padToWidthAtRight ⟨[]⟩ e2.width).push c)⟩).isEmpty
            = false
        rcases e.fillG Grapheme.space with e2 | cb
        · rfl
        · rfl
  · intro b w hb
    cases b with
    | mk inner => cases inner with
      | content cb => rfl
      | empty e => cases hb
  · intro b h hb
    cases b with
    | mk inner => cases inner with
      | content cb => rfl
      | empty e => cases hb
  · intro b n r hb h
    exact hjoin _ _ _ h (Or.inr hb)
  · intro b n r hb h
    exact hjoin _ _ _ h (Or.inl hb)
  · intro b n r hb h
    exact hjoinTB _ _ _ h (Or.inr hb)
  · intro b n r hb h
    exact hjoinTB _ _ _ h (Or.inl hb)
  · intro b w r hb h
    exact hjoin _ _ _ h (Or.inr hb)
  · intro b h r hb hj
    exact hjoinTB _ _ _ hj (Or.inr hb)
  · intro a b r h hc
    rcases Option.map_eq_some'.mp h with ⟨m, hm, rfl⟩
    exact modal_overlay_content hm hc
  · intro b c r hh h
    unfold Block.fillContent at h
    rcases hfill : EmptyBlock.fillContent ⟨b.width, b.height⟩ c with _ | res
    · rw [hfill] at h; cases h
    · rw [hfill] at h
      cases res with
      | ok cb => cases h; rfl
      | error e =>
        cases h
        unfold EmptyBlock.fillContent at hfill
        have h0 : ¬(⟨b.width, b.height⟩ : EmptyBlock).height = 0 := by
          show ¬b.height = 0
          omega
        rw [if_neg h0] at hfill
        by_cases hn : (Content.intoLines c).length = 0
        · rw [if_pos hn] at hfill
          cases hfill
        · rw [if_neg hn] at hfill
          rcases Option.map_eq_some'.mp hfill with ⟨ls, _, hout⟩
          cases hout

/-- Witness for C4: concrete instances of the mode-preservation laws. -/
theorem c4_mode_preservation_witness :
    (Block.withContent (strContent "x")).isEmpty = false ∧
      ((Block.withContent (strContent "x")).padToWidthAtRight 3).isEmpty = false ∧
      0 < (Block.withContent (strContent "x")).height ∧
      ((Block.withContent (strContent "x")).fillG ⟨"y", 1⟩).isEmpty = false :=
  ⟨by decide,
    c4_mode_preservation.2.1 (Block.withContent (strContent "x")) 3 (by decide),
    by decide,
    c4_mode_preservation.2.2.2.2.2.2.2.2.2.2.2.2.1
      (Block.withContent (strContent "x")) ⟨"y", 1⟩ (by decide)⟩

/-! ### Claim C8 -/

/-- Modelled from the spec: rendering is, for a content block, the
concatenation over the rows of (row with trailing whitespace trimmed,
then exactly one newline); an empty block renders as the empty
string. -/
def renderRows : List Content → String
  | [] => ""
  | l :: ls => trimEndStr (Content.render l) ++ "\n" ++ renderRows ls

def Block.renderSpec (b : Block) : String :=
  match b.inner with
  | ModalBlock.empty _ => ""
  | ModalBlock.content cb => renderRows cb.lines

theorem str_append_empty (s : String) : s ++ "" = s := by
  cases s with
  | mk data =>
    show String.mk (data ++ []) = String.mk data
    simp

theorem str_append_assoc (a b c : String) : a ++ b ++ c = a ++ (b ++ c) := by
  cases a with
  | mk da =>
    cases b with
    | mk db =>
      cases c with
      | mk dc =>
        show String.mk (da ++ db ++ dc) = String.mk (da ++ (db ++ dc))
        simp

theorem foldl_render_rows (ls : List Content) (s : String) :
    ls.foldl (fun out l => out ++ trimEndStr (Content.render l) ++ "\n") s =
      s ++ renderRows ls := by
  induction ls generalizing s with
  | nil => simp [renderRows, str_append_empty]
  | cons a as ih =>
    simp only [List.foldl_cons, renderRows, ih]
    rw [str_append_assoc, str_append_assoc,
      str_append_assoc (trimEndStr (Content.render a)) "\n" (renderRows as)]

/-- C8: rendering produces, for a content-mode block, the concatenation
of its rows with each row's trailing whitespace trimmed and exactly one
newline appended, and for an empty-mode block the empty string,
whatever its recorded dimensions. -/
theorem c8_render (b : Block) : Block.render b = Block.renderSpec b := by
  cases b with
  | mk inner =>
    cases inner with
    | empty e => rfl
    | content cb =>
      show cb.lines.foldl _ "" = renderRows cb.lines
      rw [foldl_render_rows]
      show String.mk ([] ++ (renderRows cb.lines).data) = _
      simp

/-! ### Claim C10 -/

theorem seqO_map_none {f : Content → Option Content} {xs : List Content}
    (h : ∃ x ∈ xs, f x = none) : seqO (xs.map f) = none := by
  induction xs with
  | nil => rcases h with ⟨x, hx, _⟩; cases hx
  | cons a as ih =>
    rcases h with ⟨x, hx, hfx⟩
    rcases List.mem_cons.mp hx with rfl | hmem
    · simp only [List.map_cons, hfx]
      rfl
    · simp only [List.map_cons]
      rcases hfa : f a with _ | y
      · rfl
      · show ((seqO (as.map f)).map fun bs => y :: bs) = none
        rw [ih ⟨x, hmem, hfx⟩]
        rfl

/-- C10 counterexample: a block of positive width but zero height,
filled with a single zero-width line, does not panic — the zero-height
test returns the block unchanged before any line is examined. -/
theorem c10_counterexample :
    (Block.withDimensions 1 0).fillContent [(⟨"z", 0⟩ : Grapheme)] =
      some (Block.withDimensions 1 0) := by
  decide

/-- C10 (amended): filling with a content filler is partial at the
public interface.  For every block of positive height, `Block::fill`
panics when the filler splits into zero lines; and for every block of
positive width and positive height it panics when one of the filler
lines actually placed (the first `min(lines, height)` after cycling)
has zero display width, because the tiling step divides by the line
width.  (A zero-height block returns unchanged before the lines are
examined, so positive height is required in both parts.) -/
theorem c10_fill_panics :
    (∀ b : Block, ∀ c : Content, 0 < b.height → Content.intoLines c = [] →
      b.fillContent c = none) ∧
    (∀ b : Block, ∀ c : Content, 0 < b.width → 0 < b.height →
      (∃ l ∈ fillKept b.height (Content.intoLines c), Content.width l = 0) →
      b.fillContent c = none) := by
  have hmain : ∀ (e : EmptyBlock) (c : Content), ¬e.height = 0 →
      (Content.intoLines c = [] ∨
        (0 < e.width ∧ ∃ l ∈ fillKept e.height (Content.intoLines c), Content.width l = 0)) →
      EmptyBlock.fillContent e c = none := by
    intro e c hh hcase
    unfold EmptyBlock.fillContent
    rw [if_neg hh]
    rcases hcase with hnil | ⟨hw, l, hl, hl0⟩
    · rw [if_pos (by rw [hnil]; rfl)]
    · by_cases hn : (Content.intoLines c).length = 0
      · rw [if_pos hn]
      · rw [if_neg hn]
        have : seqO ((fillKept e.height (Content.intoLines c)).map (fillLine e.width)) = none := by
          apply seqO_map_none
          refine ⟨l, hl, ?_⟩
          unfold fillLine
          rw [if_pos (by omega : Content.width l < e.width), if_pos hl0]
        rw [this]
        rfl
  constructor
  · intro b c hh hnil
    unfold Block.fillContent
    rw [hmain ⟨b.width, b.height⟩ c (by show ¬b.height = 0; omega) (Or.inl hnil)]
  · intro b c hw hh hex
    unfold Block.fillContent
    rw [hmain ⟨b.width, b.height⟩ c (by show ¬b.height = 0; omega) (Or.inr ⟨hw, hex⟩)]

/-- Witness for C10: the panics at concrete inputs — a two-row block
filled with the empty string, and a 1×1 block filled with a single
zero-width line. -/
theorem c10_fill_panics_witness :
    0 < (Block.withDimensions 1 2).height ∧
      Content.intoLines ([] : Content) = [] ∧
      (Block.withDimensions 1 2).fillContent [] = none ∧
      (Block.withDimensions 1 1).fillContent [(⟨"z", 0⟩ : Grapheme)] = none :=
  ⟨by decide, by decide,
    c10_fill_panics.1 (Block.withDimensions 1 2) [] (by decide) (by decide),
    c10_fill_panics.2 (Block.withDimensions 1 1) [(⟨"z", 0⟩ : Grapheme)]
      (by decide) (by decide) (by decide)⟩

/-! ### Claim C7 -/

/-- Modelled from the spec: the default decision rule as a merge of two
glyphs — a front glyph equal to the space grapheme is transparent (the
back glyph is chosen), any other front glyph is opaque. -/
def chooseSpec (f b : Grapheme) : Grapheme :=
  if f.text = " " then b else f

/-- All glyphs of a content block are single-width (grapheme count and
column count coincide). -/
def ContentBlock.unitW (cb : ContentBlock) : Prop :=
  ∀ l ∈ cb.lines, ∀ g ∈ l, g.w = 1

def ModalBlock.unitW : ModalBlock → Prop
  | ModalBlock.empty _ => True
  | ModalBlock.content cb => cb.unitW

def Block.unitW (b : Block) : Prop := b.inner.unitW

theorem width_eq_length_of_unit {c : Content} (h : ∀ g ∈ c, g.w = 1) :
    Content.width c = c.length := by
  induction c with
  | nil => rfl
  | cons g gs ih =>
    show g.w + Content.width gs = gs.length + 1
    rw [h g (List.mem_cons_self g gs), ih (fun x hx => h x (List.mem_cons_of_mem g hx))]
    omega

theorem unit_repeatN_space (n : Nat) :
    ∀ g ∈ Content.repeatN (Content.grapheme Grapheme.space) n, g.w = 1 := by
  rw [Content.repeatN_single]
  intro g hg
  rcases List.eq_of_mem_replicate hg with rfl
  rfl

theorem unit_space_repeatN (n : Nat) :
    ∀ g ∈ Content.repeatN Content.space n, g.w = 1 :=
  unit_repeatN_space n

theorem padToWidthAtRight_unit {cb : ContentBlock} (h : cb.unitW) (w : Nat) :
    (cb.padToWidthAtRight w).unitW := by
  intro l hl
  unfold ContentBlock.padToWidthAtRight at hl
  by_cases hc : 0 < w - cb.width
  · simp only [hc, if_pos] at hl
    rcases List.mem_map.mp hl with ⟨x, hx, rfl⟩
    intro g hg
    rcases List.mem_append.mp hg with hg | hg
    · exact h x hx g hg
    · exact unit_space_repeatN _ g hg
  · simp only [hc, if_neg, not_false_iff] at hl
    exact h l hl

theorem joinTopToBottomAtLeft_unit {t b : ContentBlock}
    (ht : t.unitW) (hb : b.unitW) : (t.joinTopToBottomAtLeft b).unitW := by
  intro l hl
  unfold ContentBlock.joinTopToBottomAtLeft at hl
  rcases List.mem_append.mp hl with hl | hl
  · exact padToWidthAtRight_unit ht _ l hl
  · exact padToWidthAtRight_unit hb _ l hl

theorem spacer_unit (n w : Nat) :
    (ContentBlock.mk (List.replicate n (Content.repeatN (Content.grapheme Grapheme.space) w))).unitW := by
  intro l hl
  rcases List.eq_of_mem_replicate hl with rfl
  exact unit_repeatN_space w

theorem padToHeightAtBottom_unit {cb : ContentBlock} (h : cb.unitW) (ht : Nat) :
    (cb.padToHeightAtBottom ht).unitW := by
  unfold ContentBlock.padToHeightAtBottom
  by_cases hc : 0 < ht - cb.height
  · simp only [hc, if_pos]
    exact joinTopToBottomAtLeft_unit h (spacer_unit _ _)
  · simp only [hc, if_neg, not_false_iff]
    exact h

theorem rows_replicate_unit (n w : Nat) :
    (ContentBlock.mk (List.replicate n (Content.repeatN (Content.grapheme Grapheme.space) w))).unitW :=
  spacer_unit n w

theorem overlay_choice (fg bg : Grapheme) :
    (match defaultDecide fg bg with
      | Layer.front => fg
      | Layer.back => bg) = chooseSpec fg bg := by
  unfold defaultDecide chooseSpec
  by_cases h : fg.text = " " <;> simp [h]

theorem zip_choice (a c : Content) :
    List.zipWith
        (fun fg bg => match defaultDecide fg bg with
          | Layer.front => fg
          | Layer.back => bg) a c =
      List.zipWith chooseSpec a c := by
  induction a generalizing c with
  | nil => simp
  | cons g gs ih =>
    cases c with
    | nil => simp
    | cons h2 hs =>
      simp only [List.zipWith_cons_cons, ih]
      rw [overlay_choice]

theorem seqO_map_some (xs : List Content) : seqO (xs.map some) = some xs := by
  induction xs with
  | nil => rfl
  | cons a as ih =>
    show (seqO (as.map some)).map (fun bs => a :: bs) = some (a :: as)
    rw [ih]
    rfl

theorem zip_overlay_some {W : Nat} :
    ∀ {as bs : List Content}, (∀ a ∈ as, Content.width a = W) →
      (∀ b ∈ bs, Content.width b = W) →
      List.zipWith (fun fl bl => Content.overlayWith fl bl defaultDecide) as bs =
        (List.zipWith (fun fl bl => List.zipWith chooseSpec fl bl) as bs).map some := by
  intro as
  induction as with
  | nil => intro bs _ _; simp
  | cons a as2 ih =>
    intro bs ha hb
    cases bs with
    | nil => simp
    | cons b bs2 =>
      simp only [List.zipWith_cons_cons, List.map_cons]
      have h1 : Content.overlayWith a b defaultDecide =
          some (List.zipWith chooseSpec a b) := by
        unfold Content.overlayWith
        rw [if_pos (by rw [ha a (List.mem_cons_self a as2), hb b (List.mem_cons_self b bs2)])]
        rw [zip_choice]
      rw [h1, ih (fun x hx => ha x (List.mem_cons_of_mem a hx))
        (fun x hx => hb x (List.mem_cons_of_mem b hx))]

theorem padded_rows_width {f b2 : ContentBlock} (hf : f.Wf) :
    ∀ l ∈ ((f.padToHeightAtBottom (max f.height b2.height)).padToWidthAtRight
        (max f.width b2.width)).lines,
      Content.width l = max f.width b2.width := by
  intro l hl
  have h2 := padToWidthAtRight_rows (padToHeightAtBottom_wf hf (max f.height b2.height))
    (max f.width b2.width) l hl
  rw [padToHeightAtBottom_width hf] at h2
  rw [h2]
  omega

theorem padded_rows_length (f b2 : ContentBlock) :
    ((f.padToHeightAtBottom (max f.height b2.height)).padToWidthAtRight
        (max f.width b2.width)).lines.length = max f.height b2.height := by
  have h1 := padToWidthAtRight_height (f.padToHeightAtBottom (max f.height b2.height))
    (max f.width b2.width)
  have h2 := padToHeightAtBottom_height f (max f.height b2.height)
  simp only [ContentBlock.height] at h1 h2 ⊢
  rw [h1, h2]
  omega

theorem padded_rows_length2 (f b2 : ContentBlock) :
    ((b2.padToHeightAtBottom (max f.height b2.height)).padToWidthAtRight
        (max f.width b2.width)).lines.length = max f.height b2.height := by
  have h1 := padToWidthAtRight_height (b2.padToHeightAtBottom (max f.height b2.height))
    (max f.width b2.width)
  have h2 := padToHeightAtBottom_height b2 (max f.height b2.height)
  simp only [ContentBlock.height] at h1 h2 ⊢
  rw [h1, h2]
  omega

/-- The content-block overlay, written as the spec describes it: pad
both operands to the union of their dimensions, then merge
corresponding rows glyph-by-glyph with the default decision rule. -/
theorem cb_overlay_eq {f b : ContentBlock} (hf : f.Wf) (hb : b.Wf) :
    f.overlay b =
      some (ContentBlock.fromLines
        (List.zipWith (fun fl bl => List.zipWith chooseSpec fl bl)
          ((f.padToHeightAtBottom (max f.height b.height)).padToWidthAtRight
            (max f.width b.width)).lines
          ((b.padToHeightAtBottom (max f.height b.height)).padToWidthAtRight
            (max f.width b.width)).lines)) := by
  have hbrows : ∀ l ∈ ((b.padToHeightAtBottom (max f.height b.height)).padToWidthAtRight
      (max f.width b.width)).lines, Content.width l = max f.width b.width := by
    intro l hl
    have h2 := padToWidthAtRight_rows (padToHeightAtBottom_wf hb (max f.height b.height))
      (max f.width b.width) l hl
    rw [padToHeightAtBottom_width hb] at h2
    rw [h2]
    omega
  unfold ContentBlock.overlay
  rw [zip_overlay_some (padded_rows_width hf) hbrows, seqO_map_some]
  rfl

theorem cb_overlay_dims {f b r : ContentBlock} (hf : f.Wf) (hb : b.Wf)
    (huf : f.unitW) (hub : b.unitW) (h : f.overlay b = some r) :
    r.width = max f.width b.width ∧ r.height = max f.height b.height := by
  rw [cb_overlay_eq hf hb] at h
  have hr : r = ContentBlock.fromLines
      (List.zipWith (fun fl bl => List.zipWith chooseSpec fl bl)
        ((f.padToHeightAtBottom (max f.height b.height)).padToWidthAtRight
          (max f.width b.width)).lines
        ((b.padToHeightAtBottom (max f.height b.height)).padToWidthAtRight
          (max f.width b.width)).lines) := by
    cases h; rfl
  subst hr
  have hlen : (List.zipWith (fun fl bl => List.zipWith chooseSpec fl bl)
      ((f.padToHeightAtBottom (max f.height b.height)).padToWidthAtRight
        (max f.width b.width)).lines
      ((b.padToHeightAtBottom (max f.height b.height)).padToWidthAtRight
        (max f.width b.width)).lines).length = max f.height b.height := by
    rw [List.length_zipWith, padded_rows_length f b, padded_rows_length2 f b]
    omega
  constructor
  case right =>
    rw [fromLines_height, hlen]
  case left =>
    rw [fromLines_width]
    by_cases hH : max f.height b.height = 0
    · have hf0 : f.lines = [] := height_zero_lines_nil (by omega)
      have hb0 : b.lines = [] := height_zero_lines_nil (by omega)
      have : (List.zipWith (fun fl bl => List.zipWith chooseSpec fl bl)
          ((f.padToHeightAtBottom (max f.height b.height)).padToWidthAtRight
            (max f.width b.width)).lines
          ((b.padToHeightAtBottom (max f.height b.height)).padToWidthAtRight
            (max f.width b.width)).lines) = [] := by
        apply List.eq_nil_of_length_eq_zero
        omega
      rw [this, linesWidth_nil, width_of_lines_nil hf0, width_of_lines_nil hb0]
      rfl
    · apply linesWidth_const
      · intro x hx
        rcases mem_zipWith hx with ⟨a, ha, c, hc, rfl⟩
        have hau : ∀ g ∈ a, Grapheme.w g = 1 :=
          padToWidthAtRight_unit (padToHeightAtBottom_unit huf _) _ a ha
        have hcu : ∀ g ∈ c, Grapheme.w g = 1 :=
          padToWidthAtRight_unit (padToHeightAtBottom_unit hub _) _ c hc
        have hxu : ∀ g ∈ List.zipWith chooseSpec a c, Grapheme.w g = 1 := by
          intro g hg
          rcases mem_zipWith hg with ⟨ga, hga, gc, hgc, rfl⟩
          unfold chooseSpec
          by_cases hsp : ga.text = " "
          · rw [if_pos hsp]; exact hcu gc hgc
          · rw [if_neg hsp]; exact hau ga hga
        rw [width_eq_length_of_unit hxu, List.length_zipWith,
          ← width_eq_length_of_unit hau, ← width_eq_length_of_unit hcu,
          padded_rows_width hf a ha]
        have := padToWidthAtRight_rows (padToHeightAtBottom_wf hb (max f.height b.height))
          (max f.width b.width) c hc
        rw [padToHeightAtBottom_width hb] at this
        rw [this]
        omega
      · intro hnil
        rw [hnil] at hlen
        simp at hlen
        omega

theorem padded_width_le {bc : ContentBlock} (hb : bc.Wf) (W H : Nat)
    (hW : bc.width ≤ W) :
    ((bc.padToWidthAtRight W).padToHeightAtBottom H).width ≤ W ∧
      ((bc.padToWidthAtRight W).padToHeightAtBottom H).height = max bc.height H := by
  have hwf := padToWidthAtRight_wf hb W
  constructor
  · rw [padToHeightAtBottom_width hwf]
    rcases List.eq_nil_or_concat bc.lines with hnil | _
    · rw [padToWidthAtRight_nil hnil]
      have := width_of_lines_nil hnil
      omega
    · have hne : bc.lines ≠ [] := by intro hn; simp_all
      rw [padToWidthAtRight_width hb W hne]
      omega
  · rw [padToHeightAtBottom_height]
    have hph := padToWidthAtRight_height bc W
    simp only [ContentBlock.height] at hph ⊢
    rw [hph]

theorem fill_padded_ok {f : EmptyBlock} {W H : Nat} {cb : ContentBlock}
    (hW : f.width ≤ W) (hH : f.height ≤ H)
    (h : ((f.padToWidthAtRight W).padToHeightAtBottom H).fillG Grapheme.space =
      Except.ok cb) :
    cb.Wf ∧ cb.unitW ∧ cb.width = W ∧ cb.height = H := by
  rcases fillG_ok_iff.mp h with ⟨hh, rfl⟩
  refine ⟨rows_replicate_wf _ _ _, rows_replicate_unit _ _, ?_, ?_⟩
  · rw [rows_replicate_width (Nat.pos_of_ne_zero hh)]
    show max f.width W * Grapheme.w Grapheme.space = W
    have hsw : Grapheme.w Grapheme.space = 1 := rfl
    rw [hsw]
    omega
  · rw [rows_replicate_height]
    show max f.height H = H
    omega

theorem modal_overlay_dims {a b r : ModalBlock}
    (ha : a.Wf) (hb : b.Wf) (hua : a.unitW) (hub : b.unitW)
    (h : a.overlay b = some r) :
    r.width = max a.width b.width ∧ r.height = max a.height b.height := by
  cases a with
  | empty f =>
    cases b with
    | empty bb =>
      simp only [ModalBlock.overlay, Option.some.injEq] at h
      subst h
      exact ⟨rfl, rfl⟩
    | content bc =>
      simp only [ModalBlock.overlay] at h
      rcases hfill : ((f.padToWidthAtRight (max f.width bc.width)).padToHeightAtBottom
          (max f.height bc.height)).fillG Grapheme.space with e | cb
      · rw [hfill] at h; cases h
      · rw [hfill] at h
        rcases Option.map_eq_some'.mp h with ⟨r2, hr2, rfl⟩
        rcases fill_padded_ok (by omega) (by omega) hfill with ⟨hcwf, hcu, hcw, hch⟩
        rcases padded_width_le hb (max f.width bc.width) (max f.height bc.height)
          (by omega) with ⟨hbw, hbh⟩
        have hbwf := padToHeightAtBottom_wf
          (@padToWidthAtRight_wf bc hb (max f.width bc.width)) (max f.height bc.height)
        have hbu := padToHeightAtBottom_unit
          (@padToWidthAtRight_unit bc hub (max f.width bc.width)) (max f.height bc.height)
        rcases cb_overlay_dims hcwf hbwf hcu hbu hr2 with ⟨hw2, hh2⟩
        constructor
        · show r2.width = max f.width bc.width
          rw [hw2, hcw]
          omega
        · show r2.height = max f.height bc.height
          rw [hh2, hch, hbh]
          omega
  | content fc =>
    cases b with
    | empty bb =>
      simp only [ModalBlock.overlay] at h
      rcases hfill : ((bb.padToWidthAtRight (max fc.width bb.width)).padToHeightAtBottom
          (max fc.height bb.height)).fillG Grapheme.space with e | cb
      · rw [hfill] at h; cases h
      · rw [hfill] at h
        rcases Option.map_eq_some'.mp h with ⟨r2, hr2, rfl⟩
        rcases fill_padded_ok (by omega) (by omega) hfill with ⟨hcwf, hcu, hcw, hch⟩
        rcases padded_width_le ha (max fc.width bb.width) (max fc.height bb.height)
          (by omega) with ⟨hfw, hfh⟩
        have hfwf := padToHeightAtBottom_wf
          (@padToWidthAtRight_wf fc ha (max fc.width bb.width)) (max fc.height bb.height)
        have hfu := padToHeightAtBottom_unit
          (@padToWidthAtRight_unit fc hua (max fc.width bb.width)) (max fc.height bb.height)
        rcases cb_overlay_dims hfwf hcwf hfu hcu hr2 with ⟨hw2, hh2⟩
        constructor
        · show r2.width = max fc.width bb.width
          rw [hw2, hcw]
          omega
        · show r2.height = max fc.height bb.height
          rw [hh2, hch, hfh]
          omega
    | content bc =>
      simp only [ModalBlock.overlay] at h
      rcases Option.map_eq_some'.mp h with ⟨r2, hr2, rfl⟩
      exact cb_overlay_dims ha hb hua hub hr2

/-- C7 counterexample: the claim's dimension law fails for double-width
glyphs.  Overlaying `with_content(" 日")` (a space and a double-width
cluster, width 3) on `with_content("日b")` (width 3) merges the rows
glyph-index-wise: position 0 pairs the transparent front space with the
back `日` (back wins), position 1 pairs the front `日` with the back
`b` (front wins), giving a row `日日` of width 4 ≠ max(3, 3). -/
theorem c7_counterexample :
    ((Block.withContent [(⟨" ", 1⟩ : Grapheme), ⟨"日", 2⟩]).overlay
        (Block.withContent [(⟨"日", 2⟩ : Grapheme), ⟨"b", 1⟩])).map Block.width =
      some 4 ∧
      max (Block.withContent [(⟨" ", 1⟩ : Grapheme), ⟨"日", 2⟩]).width
        (Block.withContent [(⟨"日", 2⟩ : Grapheme), ⟨"b", 1⟩]).width = 3 := by
  refine ⟨by decide, by decide⟩

/-- C7 (amended): block-level overlay pads both operands to the union
of their dimensions and merges corresponding rows glyph-by-glyph (by
glyph index) with the default decision rule — a front glyph equal to
the space grapheme is transparent, any other front glyph is opaque;
when every glyph of both operands is single-width the result dimensions
are exactly the union (width = max of widths, height = max of
heights). -/
theorem c7_overlay :
    (∀ a b r : Block, a.Rect → b.Rect → a.unitW → b.unitW →
      Block.overlay a b = some r →
      r.width = max a.width b.width ∧ r.height = max a.height b.height) ∧
    (∀ f b : ContentBlock, f.Wf → b.Wf →
      f.overlay b =
        some (ContentBlock.fromLines
          (List.zipWith (fun fl bl => List.zipWith chooseSpec fl bl)
            ((f.padToHeightAtBottom (max f.height b.height)).padToWidthAtRight
              (max f.width b.width)).lines
            ((b.padToHeightAtBottom (max f.height b.height)).padToWidthAtRight
              (max f.width b.width)).lines))) := by
  constructor
  · intro a b r ha hb hua hub h
    rcases Option.map_eq_some'.mp h with ⟨m, hm, rfl⟩
    exact modal_overlay_dims (wf_of_rect ha) (wf_of_rect hb) hua hub hm
  · intro f b hf hb
    exact cb_overlay_eq hf hb

/-- Witness for C7: the dimension law applied to the concrete overlay
of `with_content(" x")` on `with_content("yz")` (all glyphs
single-width). -/
theorem c7_overlay_witness :
    Block.width ⟨ModalBlock.content ⟨[strContent "yx"]⟩⟩ =
        max (Block.width (Block.withContent (strContent " x")))
          (Block.width (Block.withContent (strContent "yz"))) ∧
      Block.height ⟨ModalBlock.content ⟨[strContent "yx"]⟩⟩ =
        max (Block.height (Block.withContent (strContent " x")))
          (Block.height (Block.withContent (strContent "yz"))) :=
  c7_overlay.1 (Block.withContent (strContent " x"))
    (Block.withContent (strContent "yz")) _
    (withContent_rect _) (withContent_rect _)
    (by
      show ∀ l ∈ (ContentBlock.fromLines
        (Content.intoLines (strContent " x"))).lines, ∀ g ∈ l, Grapheme.w g = 1
      decide)
    (by
      show ∀ l ∈ (ContentBlock.fromLines
        (Content.intoLines (strContent "yz"))).lines, ∀ g ∈ l, Grapheme.w g = 1
      decide)
    (by decide)
